import Mathlib

/-!
# Verification of the tiered knowledge retrieval and caching engine

Shallow embedding of the knowledge/caching subsystem of the avatar agent
(`apps/agent/src`): the generic LRU+TTL cache (`rag/local_cache.py`), the
pre-computed response cache (`cache/response_cache.py`), the tiered context
composer (`knowledge/knowledge_integration.py`), the lesson content cache and
formatter (`knowledge/lesson_manager.py`), the mistake-pattern loaders
(`knowledge/rlm_knowledge.py`, `knowledge/general_knowledge.py`) and the
short-answer checkers (`games/game_context.py`, `knowledge/lesson_manager.py`).

Python strings are modelled as Lean `String` (a wrapper around `List Char`);
time stamps as `Nat`; `None`-able values as `Option`; calls that may raise as
`Except Unit` or `Option` results.  External collaborators (the regex engine,
the SHA-256 digest, the Convex fetches) enter as explicit function parameters,
so every property proved below is uniform in their behaviour.
-/

namespace Avatar

/-! ## Python string primitives

Character-level models of the Python `str` operations the subsystem uses:
`lower`, `strip`, whitespace `split`, `" ".join`.  They agree with CPython on
ASCII text (Unicode-only case mappings and exotic whitespace are outside the
data this engine handles).
-/

/-- The six ASCII whitespace characters recognised by Python's `str.split()`
and `str.strip()`. -/
def pyIsSpace (c : Char) : Bool :=
  c = ' ' || c = '\t' || c = '\n' || c = '\r' || c = '\x0b' || c = '\x0c'

/-- `str.lower` on a character list (ASCII case mapping). -/
def lowerL (l : List Char) : List Char :=
  l.map Char.toLower

/-- `str.strip()`: drop leading and trailing whitespace. -/
def trimL (l : List Char) : List Char :=
  (((l.dropWhile pyIsSpace).reverse).dropWhile pyIsSpace).reverse

/-- Accumulator-passing core of Python `str.split()` (split on whitespace
runs, dropping empty fields).  `acc` holds the reversed current word. -/
def splitWsAux : List Char → List Char → List (List Char)
  | [], acc => if acc = [] then [] else [acc.reverse]
  | c :: cs, acc =>
    if pyIsSpace c then
      if acc = [] then splitWsAux cs [] else acc.reverse :: splitWsAux cs []
    else
      splitWsAux cs (c :: acc)

/-- Python `str.split()` with no separator argument. -/
def splitWs (l : List Char) : List (List Char) :=
  splitWsAux l []

/-- Python `" ".join(words)`. -/
def joinWords : List (List Char) → List Char
  | [] => []
  | [w] => w
  | w :: ws => w ++ ' ' :: joinWords ws

/-- `str.lower` on `String`. -/
def pyLower (s : String) : String :=
  ⟨lowerL s.data⟩

/-- `d[k] = v` on a Python (ordered) dict modelled as an association list:
replace in place when the key exists, append otherwise. -/
def dictInsert (k : String) (v : β) : List (String × β) → List (String × β)
  | [] => [(k, v)]
  | (k', v') :: t => if k' == k then (k', v) :: t else (k', v') :: dictInsert k v t

/-- `str.strip()` on `String`. -/
def pyStrip (s : String) : String :=
  ⟨trimL s.data⟩

/-- The case-folded word sequence of a query
(`query.lower().split()`): the canonical representative of "differs only in
letter case and whitespace". -/
def wordsOf (q : String) : List (List Char) :=
  splitWs (lowerL q.data)

/-- Character-level `",".join`: the `data` of `joinCommaS`. -/
def joinC : List (List Char) → List Char
  | [] => []
  | [x] => x
  | x :: y :: ys => x ++ ',' :: joinC (y :: ys)

/-- The segment of a character list after its last `':'` (the whole list
when there is none). -/
def lastSeg (l : List Char) : List Char :=
  (l.reverse.takeWhile (fun c => c != ':')).reverse

/-! ## `rag/local_cache.py` — the generic LRU+TTL cache (`RAGCache`)

`time.time()` is modelled by explicit `Nat` arguments; the cached Python value
(`Any`, possibly `None`) by `Option α` with `none` for `None`; the SHA-256
digest `hashlib.sha256(...).hexdigest()[:16]` by an explicit `digest`
function parameter.  The `asyncio.Lock` serialises the mutations, so the
sequential model below is the behaviour of each critical section.
-/

namespace RAGCache

/-- `CacheEntry` dataclass: a cached RAG result. -/
structure CacheEntry (α : Type) where
  result : Option α
  timestamp : Nat
  hit_count : Nat := 0
  deriving Repr, DecidableEq

/-- The mutable state of a `RAGCache` instance: `max_size`, `ttl_seconds`,
the insertion/access-ordered `OrderedDict` (head = least recently touched),
and the `_stats` counters. -/
structure State (α : Type) where
  maxSize : Nat
  ttl : Nat
  entries : List (String × CacheEntry α)
  hits : Nat := 0
  misses : Nat := 0
  evictions : Nat := 0
  deriving Repr, DecidableEq

/-- The keys currently present, in order (head = least recently used). -/
def keys (st : State α) : List String :=
  st.entries.map Prod.fst

/-- `_normalize_query`: `" ".join(query.lower().strip().split())`. -/
def normalizeQuery (query : String) : String :=
  ⟨joinWords (splitWs (trimL (lowerL query.data)))⟩

/-- Python `",".join(strings)`. -/
def joinCommaS : List String → String
  | [] => ""
  | [x] => x
  | x :: y :: ys => x ++ "," ++ joinCommaS (y :: ys)

/-- Python `sorted(collection_ids)`: lexicographic by code point, i.e. the
lexicographic order on the character lists (`String.le_iff_toList_le`
identifies this with `String`'s own order; the character-list form keeps
the comparison computable by the kernel). -/
def sortIds (ids : List String) : List String :=
  ids.insertionSort (fun a b => a.data ≤ b.data)

/-- The `key_data` string of `_make_key`:
`f"{normalized}:{collections_str}"` with sorted, comma-joined ids. -/
def keyData (query : String) (collectionIds : List String) : String :=
  normalizeQuery query ++ ":" ++ joinCommaS (sortIds collectionIds)

/-- `_make_key`: the truncated SHA-256 hex digest of `key_data`.  The digest
is an explicit parameter; every property proved about `makeKey` is uniform
in it. -/
def makeKey (digest : String → String) (query : String)
    (collectionIds : List String) : String :=
  digest (keyData query collectionIds)

/-- Body of `get` after the key has been computed (lines 85–104): miss on
absent key; lazily drop and miss on an entry older than TTL; otherwise
`move_to_end`, bump `hit_count`, and return the stored result. -/
def getByKey (now : Nat) (key : String) (st : State α) : Option α × State α :=
  match st.entries.find? (fun p => p.1 == key) with
  | none => (none, { st with misses := st.misses + 1 })
  | some (_, e) =>
    if e.timestamp + st.ttl < now then
      (none, { st with
                entries := st.entries.eraseP (fun p => p.1 == key),
                misses := st.misses + 1 })
    else
      (e.result,
       { st with
          entries := st.entries.eraseP (fun p => p.1 == key)
            ++ [(key, { e with hit_count := e.hit_count + 1 })],
          hits := st.hits + 1 })

/-- The `while len(self._cache) >= self.max_size: self._cache.popitem(last=False)`
loop of `set`.  Returns the surviving list and the number of evictions;
`none` models the `KeyError` `popitem` raises on an empty dict (reachable
only with `max_size = 0`). -/
def evictLoop (maxSize : Nat) :
    List (String × CacheEntry α) → Nat → Option (List (String × CacheEntry α) × Nat)
  | [], evs => if maxSize ≤ 0 then none else some ([], evs)
  | x :: t, evs =>
    if maxSize ≤ (x :: t).length then evictLoop maxSize t (evs + 1)
    else some (x :: t, evs)

/-- Body of `set` after the key has been computed (lines 106–132):
evict from the front while at or above capacity, then
`self._cache[key] = CacheEntry(result, time.time())`. -/
def setByKey (now : Nat) (key : String) (result : Option α) (st : State α) :
    Option (State α) :=
  match evictLoop st.maxSize st.entries 0 with
  | none => none
  | some (l, evs) =>
    some { st with
            entries := dictInsert key ⟨result, now, 0⟩ l,
            evictions := st.evictions + evs }

/-- `get_or_fetch` (lines 134–158): result is `((value, was_cached), state,
fetch_invoked)`.  `fetch_fn`'s outcome enters as the `fetchResult`
parameter (the sole I/O point); `nowGet`/`nowSet` are the two `time.time()`
readings. -/
def getOrFetchByKey (nowGet nowSet : Nat) (key : String) (fetchResult : Option α)
    (st : State α) : Option ((Option α × Bool) × State α × Bool) :=
  match getByKey nowGet key st with
  | (some v, st1) => some ((some v, true), st1, false)
  | (none, st1) =>
    match setByKey nowSet key fetchResult st1 with
    | none => none
    | some st2 => some ((fetchResult, false), st2, true)

/-- `get`: key derivation composed with the key-level body. -/
def get (digest : String → String) (now : Nat) (query : String)
    (ids : List String) (st : State α) : Option α × State α :=
  getByKey now (makeKey digest query ids) st

/-- `set`: key derivation composed with the key-level body. -/
def set (digest : String → String) (now : Nat) (query : String)
    (ids : List String) (result : Option α) (st : State α) : Option (State α) :=
  setByKey now (makeKey digest query ids) result st

/-- `get_or_fetch`: key derivation composed with the key-level body. -/
def getOrFetch (digest : String → String) (nowGet nowSet : Nat) (query : String)
    (ids : List String) (fetchResult : Option α) (st : State α) :
    Option ((Option α × Bool) × State α × Bool) :=
  getOrFetchByKey nowGet nowSet (makeKey digest query ids) fetchResult st

end RAGCache

/-! ## `difflib.SequenceMatcher.ratio` (used by `ResponseCache._similarity`)

Model of the stdlib ratio: `2·M/T` where `M` is the total size of the
matching blocks found by recursively taking the longest matching block
(earliest in `a`, then earliest in `b`, among the maximal ones) and `T` is
the sum of the lengths.  The autojunk heuristic only activates on strings of
200+ characters and is not modelled.  The `≥ 0.75` threshold comparison is
exact in rational arithmetic (`ratio ≥ 3/4 ⟺ 8·M ≥ 3·T`); the float
computation cannot disagree since `2·M/T` is either exactly `3/4` or at
distance at least `1/(4T)` from it, far above double rounding error. -/

/-- Length of the longest common prefix of two character lists. -/
def commonRun : List Char → List Char → Nat
  | a :: as, b :: bs => if a = b then commonRun as bs + 1 else 0
  | _, _ => 0

/-- `find_longest_match` over the whole strings: the `(i, j, k)` with maximal
`k = commonRun (a.drop i) (b.drop j)`, ties broken by smallest `i`, then
smallest `j` (the documented difflib tie-break). -/
def findBest (a b : List Char) : Nat × Nat × Nat :=
  (List.range a.length).foldl
    (fun acc i =>
      (List.range b.length).foldl
        (fun acc j =>
          let k := commonRun (a.drop i) (b.drop j)
          if acc.2.2 < k then (i, j, k) else acc)
        acc)
    (0, 0, 0)

/-- Total size of the matching blocks (`get_matching_blocks` recursion),
with fuel for termination; `|a| + |b| + 1` fuel always suffices. -/
def matchingTotal : Nat → List Char → List Char → Nat
  | 0, _, _ => 0
  | fuel + 1, a, b =>
    let best := findBest a b
    if best.2.2 = 0 then 0
    else
      best.2.2 + matchingTotal fuel (a.take best.1) (b.take best.2.1)
        + matchingTotal fuel (a.drop (best.1 + best.2.2)) (b.drop (best.2.1 + best.2.2))

/-- `SequenceMatcher(None, a, b).ratio() >= 0.75` (ratio of two empty strings
is defined as `1.0` by `_calculate_ratio`). -/
def similarityGe75 (a b : List Char) : Bool :=
  let t := a.length + b.length
  if t = 0 then true
  else decide (3 * t ≤ 8 * matchingTotal (t + 1) a b)

/-! ## `cache/response_cache.py` — the pre-computed response cache

`re.search(trigger, input, re.IGNORECASE)` enters as an explicit
`regexSearch` parameter returning `Option Bool` (`none` models `re.error`,
which the `except` clause turns into `continue`). -/

namespace ResponseCache

/-- The `CachedResponse` dataclass. -/
structure CachedResponse where
  trigger : String
  response : String
  isPattern : Bool
  context : String := ""
  priority : Int := 0
  audioUrl : String := ""
  deriving Repr, DecidableEq

/-- The cache state: the priority-sorted response list and the current
context tag (`_similarity_threshold` is the constant `0.75`). -/
structure CacheState where
  responses : List CachedResponse := []
  currentContext : String := ""
  deriving Repr, DecidableEq

/-- Insert an entry after every entry of priority `≥` its own: the unique
stable position used by Python's stable `sort(key=lambda x: -x.priority)`. -/
def insDesc (x : CachedResponse) : List CachedResponse → List CachedResponse
  | [] => [x]
  | y :: ys => if y.priority < x.priority then x :: y :: ys else y :: insDesc x ys

/-- Stable sort by descending priority (the result of Python's stable
`list.sort` with key `-priority`). -/
def sortByPriorityDesc (l : List CachedResponse) : List CachedResponse :=
  l.foldl (fun acc x => insDesc x acc) []

/-- `_similarity(a, b)` compared with the threshold: both arguments are
lowercased before the ratio is taken. -/
def similarityThresholdMet (a b : String) : Bool :=
  similarityGe75 (lowerL a.data) (lowerL b.data)

/-- `add_response`: literal triggers are lowercased, pattern triggers kept
verbatim; the list is re-sorted (stably) by descending priority. -/
def addResponse (st : CacheState) (trigger response : String) (isPattern : Bool)
    (context : String) (priority : Int) (audioUrl : String) : CacheState :=
  { st with
      responses := sortByPriorityDesc (st.responses ++
        [{ trigger := if isPattern then trigger else pyLower trigger,
           response := response, isPattern := isPattern, context := context,
           priority := priority, audioUrl := audioUrl }]) }

/-- The `for cached in self._responses` loop of `lookup`: skip on context
mismatch; exact match for literal triggers; regex match for pattern
triggers (`re.error` ⇒ continue); fuzzy ratio match for literal triggers. -/
def lookupFrom (regexSearch : String → String → Option Bool)
    (currentContext inputLower : String) :
    List CachedResponse → Option CachedResponse
  | [] => none
  | cached :: rest =>
    if cached.context ≠ "" ∧ cached.context ≠ currentContext then
      lookupFrom regexSearch currentContext inputLower rest
    else if !cached.isPattern && cached.trigger == inputLower then
      some cached
    else if cached.isPattern then
      match regexSearch cached.trigger inputLower with
      | some true => some cached
      | _ => lookupFrom regexSearch currentContext inputLower rest
    else if similarityThresholdMet inputLower cached.trigger then
      some cached
    else
      lookupFrom regexSearch currentContext inputLower rest

/-- `lookup`: normalise the input (`lower().strip()`) and scan the sorted
entries. -/
def lookup (regexSearch : String → String → Option Bool) (st : CacheState)
    (userInput : String) : Option CachedResponse :=
  lookupFrom regexSearch st.currentContext (pyStrip (pyLower userInput)) st.responses

/-- One entry's combined match condition: eligible for the current scope and
matched by one of the three strategies (exact / pattern / fuzzy). -/
def entryMatches (regexSearch : String → String → Option Bool)
    (currentContext inputLower : String) (cached : CachedResponse) : Bool :=
  (cached.context == "" || cached.context == currentContext) &&
    ((!cached.isPattern && cached.trigger == inputLower) ||
     (cached.isPattern && regexSearch cached.trigger inputLower == some true) ||
     (!cached.isPattern && similarityThresholdMet inputLower cached.trigger))

end ResponseCache

/-! ## The Levenshtein DP shared by the answer checkers

Both `GameContextManager._levenshtein` and `VocabularyDriller._levenshtein`
are the same two-row dynamic program; translated once here. -/

/-- Inner loop over `s2`: `prev` is the remaining suffix of the previous row
(`prev_row[j:]`), `cur` the last value appended to the current row. -/
def levNext (c1 : Char) : List Char → List Nat → Nat → List Nat
  | [], _, _ => []
  | c2 :: s2', pj :: rest, cur =>
    let v := min (min (rest.headD 0 + 1) (cur + 1))
      (pj + if c1 = c2 then 0 else 1)
    v :: levNext c1 s2' rest v
  | _ :: _, [], _ => []

/-- Outer loop over `s1`, carrying the previous row and the row index. -/
def levFold (s2 : List Char) : List Char → List Nat → Nat → Nat
  | [], prevRow, _ => prevRow.getLastD 0
  | c1 :: s1', prevRow, i =>
    levFold s2 s1' ((i + 1) :: levNext c1 s2 prevRow (i + 1)) (i + 1)

/-- The DP after the length swap: `prev_row = range(len(s2)+1)`, one row per
character of `s1`, answer `prev_row[-1]`. -/
def levCore (s1 s2 : List Char) : Nat :=
  if s2.length = 0 then s1.length
  else levFold s2 s1 (List.range (s2.length + 1)) 0

/-- `_levenshtein(s1, s2)`: swap so the first argument is the longer one,
then run the DP. -/
def levenshtein (s1 s2 : String) : Nat :=
  if s1.length < s2.length then levCore s2.data s1.data else levCore s1.data s2.data

namespace GameContext

/-- `str.replace("'", "'")` from `_check_answer`: both arguments are the
ASCII apostrophe (0x27) in the source, so the map sends the apostrophe to
itself. -/
def replaceApostrophe (s : String) : String :=
  ⟨s.data.map (fun c => if c = '\'' then '\'' else c)⟩

/-- `GameContextManager._check_answer` (game_context.py lines 295–306):
exact equality, apostrophe-normalised equality, or Levenshtein distance
within the length-scaled bound (1 if the correct answer has fewer than 8
characters, else 2). -/
def checkAnswer (student correct : String) : Bool :=
  if student == correct then true
  else if replaceApostrophe student == replaceApostrophe correct then true
  else
    let maxErrors : Nat := if correct.length < 8 then 1 else 2
    decide (levenshtein student correct ≤ maxErrors)

end GameContext

namespace VocabularyDriller

/-- The `is_correct` decision of `VocabularyDriller.check_answer`
(lesson_manager.py lines 590–598), on the already stripped/lowered answer
strings: exact match, or Levenshtein distance ≤ 2 when the correct answer is
longer than 5 characters. -/
def isCorrect (studentLower correctAnswer : String) : Bool :=
  studentLower == correctAnswer ||
    (decide (5 < correctAnswer.length) &&
      decide (levenshtein studentLower correctAnswer ≤ 2))

end VocabularyDriller

namespace ExerciseTracker

/-- The `is_correct` decision of `ExerciseTracker.check_answer`
(lesson_manager.py lines 392–398): literal membership of the
stripped/lowered answer in the acceptable answers with the correct answer
appended — no edit-distance tolerance at all. -/
def isCorrect (studentLower : String) (acceptableLower : List String)
    (correctAnswerLower : String) : Bool :=
  (acceptableLower ++ [correctAnswerLower]).contains studentLower

end ExerciseTracker

/-! ## `knowledge/lesson_manager.py` — lesson content cache and formatter

The Convex fetch of `get_content` enters as an `Except Unit (Option γ)`
outcome: `.error ()` models the caught exception, `.ok none` a response
without a truthy `jsonContent`, `.ok (some c)` a truthy `jsonContent`. -/

namespace LessonManager

/-- The `LessonIndex` dataclass (lightweight per-lesson index entry). -/
structure LessonIndexEntry where
  content_id : String
  title : String := ""
  topic : String := ""
  level : String := ""
  exercise_count : Nat := 0
  vocabulary_count : Nat := 0
  grammar_count : Nat := 0
  keywords : List String := []
  deriving Repr, DecidableEq

/-- The state `get_content` mutates: `content_cache : Dict[str, Any]`
(content id → cached `jsonContent`), in insertion order. -/
structure CacheState (γ : Type) where
  contentCache : List (String × γ) := []
  deriving Repr, DecidableEq

/-- `get_content` (lesson_manager.py lines 130–147): the cached content if
present; otherwise consult the fetch outcome — an exception is caught and
logged, a response without a truthy `jsonContent` is ignored, a truthy
`jsonContent` is cached and returned.  Result:
`(returned value, new state, fetch performed?)`. -/
def getContent (fetch : Except Unit (Option γ)) (contentId : String)
    (st : CacheState γ) : Option γ × CacheState γ × Bool :=
  match st.contentCache.find? (fun p => p.1 == contentId) with
  | some (_, v) => (some v, st, false)
  | none =>
    match fetch with
    | .error _ => (none, st, true)
    | .ok none => (none, st, true)
    | .ok (some c) =>
      (some c, { st with contentCache := st.contentCache ++ [(contentId, c)] }, true)

/-- A sequence of later `get_content` calls (content id, fetch outcome),
applied in order; used to state that cached entries persist. -/
def runCalls (calls : List (String × Except Unit (Option γ)))
    (st : CacheState γ) : CacheState γ :=
  calls.foldl (fun s c => (getContent c.2 c.1 s).2.1) st

/-- The value stored in the content cache for a content id, if any. -/
def cachedAt (st : CacheState γ) (cid : String) : Option γ :=
  (st.contentCache.find? (fun p => p.1 == cid)).map Prod.snd

/-- One exercise item; `""` models an absent or falsy field whose `get`
default is `''`/`None`. -/
structure ExerciseItem where
  question : String := ""
  correctAnswer : String := ""
  explanation : String := ""
  deriving Repr, DecidableEq

/-- One exercise; `Option` fields are those whose `get` default is a
non-empty string (`'Exercise'`, `'unknown'`). -/
structure Exercise where
  title : Option String := none
  etype : Option String := none
  instructions : String := ""
  items : List ExerciseItem := []
  deriving Repr, DecidableEq

/-- One grammar example of the lesson content. -/
structure GrammarExample where
  correct : String := ""
  incorrect : String := ""
  explanation : String := ""
  deriving Repr, DecidableEq

/-- One grammar rule of the lesson content. -/
structure ContentGrammarRule where
  name : Option String := none
  category : Option String := none
  formula : String := ""
  rule : String := ""
  examples : List GrammarExample := []
  deriving Repr, DecidableEq

/-- One vocabulary entry of the lesson content. -/
structure VocabItem where
  term : String := ""
  termDe : String := ""
  definition : String := ""
  exampleSentence : String := ""
  deriving Repr, DecidableEq

/-- The `jsonContent` blob as `format_for_context` reads it: `metadata`
(title/level/topic, with non-trivial `get` defaults) and `content`
(exercises, grammarRules, vocabulary; `[]` models absent lists). -/
structure JsonContent where
  title : Option String := none
  level : Option String := none
  topic : Option String := none
  exercises : List Exercise := []
  grammarRules : List ContentGrammarRule := []
  vocabulary : List VocabItem := []
  deriving Repr, DecidableEq

/-- The item lines of one exercise item. -/
def formatItemParts (item : ExerciseItem) : List String :=
  ["- Q: " ++ item.question, "  A: " ++ item.correctAnswer] ++
    (if item.explanation ≠ "" then ["  Explanation: " ++ item.explanation] else [])

/-- The lines of one exercise: heading, type, instructions, and at most 5
items (`ex.get("items", [])[:5]  # Limit items`). -/
def formatExerciseParts (ex : Exercise) : List String :=
  ["\n### " ++ ex.title.getD "Exercise",
   "Type: " ++ ex.etype.getD "unknown",
   "Instructions: " ++ ex.instructions] ++
    ((ex.items.take 5).map formatItemParts).flatten

/-- The lines of one grammar example. -/
def formatExampleParts (e : GrammarExample) : List String :=
  ["  Correct: " ++ e.correct] ++
    (if e.incorrect ≠ "" then ["  Incorrect: " ++ e.incorrect] else []) ++
    (if e.explanation ≠ "" then ["  Why: " ++ e.explanation] else [])

/-- The lines of one grammar rule: heading and at most 3 examples
(`rule.get("examples", [])[:3]`). -/
def formatRuleParts (r : ContentGrammarRule) : List String :=
  ["\n### " ++ r.name.getD "Rule",
   "Category: " ++ r.category.getD "general",
   "Formula: " ++ r.formula,
   "Explanation: " ++ r.rule] ++
    ((r.examples.take 3).map formatExampleParts).flatten

/-- The lines of one vocabulary entry. -/
def formatVocabParts (v : VocabItem) : List String :=
  ["- " ++ v.term ++ " (" ++ v.termDe ++ ")",
   "  Definition: " ++ v.definition] ++
    (if v.exampleSentence ≠ "" then ["  Example: " ++ v.exampleSentence] else [])

/-- `format_for_context` (lesson_manager.py lines 149–195): header, then the
exercises / grammar rules / vocabulary sections gated by `focus` and list
truthiness, with the vocabulary list capped at 15
(`content["vocabulary"][:15]  # Limit vocab`), joined with newlines. -/
def formatForContext (c : JsonContent) (focus : String) : String :=
  let parts : List String :=
    ["[LESSON: " ++ c.title.getD "Untitled" ++ "]",
     "Level: " ++ c.level.getD "Unknown",
     "Topic: " ++ c.topic.getD "Unknown"] ++
    (if (focus = "all" ∨ focus = "exercises") ∧ c.exercises ≠ [] then
        "\n## EXERCISES:" :: (c.exercises.map formatExerciseParts).flatten
      else []) ++
    (if (focus = "all" ∨ focus = "grammar") ∧ c.grammarRules ≠ [] then
        "\n## GRAMMAR RULES:" :: (c.grammarRules.map formatRuleParts).flatten
      else []) ++
    (if (focus = "all" ∨ focus = "vocabulary") ∧ c.vocabulary ≠ [] then
        "\n## VOCABULARY:" :: ((c.vocabulary.take 15).map formatVocabParts).flatten
      else []) ++
    ["\n[END LESSON]"]
  String.intercalate "\n" parts

/-- The per-list truncations `format_for_context` enforces on the curriculum
portion: at most 5 items per exercise, 3 examples per grammar rule, 15
vocabulary entries. -/
def capContent (c : JsonContent) : JsonContent :=
  { c with
      exercises := c.exercises.map (fun e => { e with items := e.items.take 5 }),
      grammarRules := c.grammarRules.map (fun r => { r with examples := r.examples.take 3 }),
      vocabulary := c.vocabulary.take 15 }

end LessonManager

/-! ## `knowledge/knowledge_integration.py` — the tiered context composer -/

namespace Knowledge

/-- The `KnowledgeContext` dataclass: one slot per category per tier, plus
lesson content and session progress (empty string = no contribution). -/
structure KnowledgeContext where
  rlm_grammar_context : String := ""
  rlm_vocabulary_context : String := ""
  rlm_mistake_context : String := ""
  grammar_context : String := ""
  vocabulary_context : String := ""
  mistake_correction : String := ""
  lesson_context : String := ""
  session_progress : String := ""
  deriving Repr, DecidableEq

/-- The `parts` list built by `KnowledgeContext.to_string`: RLM slots first,
then each built-in slot only when the matching RLM slot is empty, then
lesson content and session progress. -/
def toParts (c : KnowledgeContext) : List String :=
  (if c.rlm_grammar_context ≠ "" then [c.rlm_grammar_context] else []) ++
  (if c.rlm_vocabulary_context ≠ "" then [c.rlm_vocabulary_context] else []) ++
  (if c.rlm_mistake_context ≠ "" then [c.rlm_mistake_context] else []) ++
  (if c.grammar_context ≠ "" ∧ c.rlm_grammar_context = "" then [c.grammar_context] else []) ++
  (if c.vocabulary_context ≠ "" ∧ c.rlm_vocabulary_context = "" then [c.vocabulary_context] else []) ++
  (if c.mistake_correction ≠ "" ∧ c.rlm_mistake_context = "" then [c.mistake_correction] else []) ++
  (if c.lesson_context ≠ "" then [c.lesson_context] else []) ++
  (if c.session_progress ≠ "" then [c.session_progress] else [])

/-- `KnowledgeContext.to_string`: `"\n\n".join(parts) if parts else ""`. -/
def toContextString (c : KnowledgeContext) : String :=
  if toParts c = [] then "" else String.intercalate "\n\n" (toParts c)

/-- One knowledge tier's lookup/format methods, with opaque rule (`G`),
vocabulary (`V`) and mistake (`M`) types.  Instantiated by
`RLMKnowledgeProvider` (`lookup_grammar` / `format_grammar_for_context` /
`lookup_vocabulary` / `format_vocabulary_for_context` / `check_mistakes` /
`format_mistake_for_context`) and by `GeneralKnowledgeBase`
(`lookup_grammar` / `format_grammar_for_context` / `lookup_vocabulary` /
`format_vocabulary_for_context` / `check_for_mistakes` /
`format_mistake_correction`). -/
structure Tier (G V M : Type) where
  lookupGrammar : String → List G
  formatGrammar : List G → String
  lookupVocabulary : String → Option V
  formatVocabulary : List V → String
  checkMistakes : String → List M
  formatMistake : M → String

/-- The keyword flags of `get_context_for_query` (all default `True`). -/
structure Config where
  includeLesson : Bool := true
  includeGrammar : Bool := true
  includeVocabulary : Bool := true
  checkMistakes : Bool := true
  deriving Repr, DecidableEq

/-- `user_text.lower().split()` as a list of `String`s. -/
def lowerWords (userText : String) : List String :=
  (splitWs (lowerL userText.data)).map (fun w => (⟨w⟩ : String))

/-- The `# TIER 1: RLM Structured Knowledge` block of
`get_context_for_query`: fill the `rlm_*` slots from the RLM provider when
it is loaded (grammar rules, vocabulary of the long query words, first
matching mistake pattern). -/
def applyTier1 {G1 V1 M1 : Type} (rlmLoaded : Bool) (rlm : Tier G1 V1 M1)
    (cfg : Config) (userText : String) (ctx : KnowledgeContext) : KnowledgeContext :=
  let ctx :=
    if rlmLoaded && cfg.includeGrammar then
      let rlmGrammar := rlm.lookupGrammar userText
      if !rlmGrammar.isEmpty then
        { ctx with rlm_grammar_context := rlm.formatGrammar rlmGrammar }
      else ctx
    else ctx
  let ctx :=
    if rlmLoaded && cfg.includeVocabulary then
      let entries := ((lowerWords userText).filter (fun w => 3 < w.length)).filterMap
        rlm.lookupVocabulary
      if !entries.isEmpty then
        { ctx with rlm_vocabulary_context := rlm.formatVocabulary entries }
      else ctx
    else ctx
  if rlmLoaded && cfg.checkMistakes then
    match rlm.checkMistakes userText with
    | [] => ctx
    | m :: _ => { ctx with rlm_mistake_context := rlm.formatMistake m }
  else ctx

/-- The `# TIER 2: Built-in General Knowledge` block of
`get_context_for_query`: fill each built-in slot only when the matching RLM
slot is still empty (`if include_grammar and not context.rlm_grammar_context`,
etc.). -/
def applyTier2 {G2 V2 M2 : Type} (general : Tier G2 V2 M2) (cfg : Config)
    (userText : String) (ctx : KnowledgeContext) : KnowledgeContext :=
  let ctx :=
    if cfg.includeGrammar && ctx.rlm_grammar_context == "" then
      let rules := general.lookupGrammar userText
      if !rules.isEmpty then { ctx with grammar_context := general.formatGrammar rules }
      else ctx
    else ctx
  let ctx :=
    if cfg.includeVocabulary && ctx.rlm_vocabulary_context == "" then
      let entries := ((lowerWords userText).filter (fun w => 3 < w.length)).filterMap
        general.lookupVocabulary
      if !entries.isEmpty then
        { ctx with vocabulary_context := general.formatVocabulary entries }
      else ctx
    else ctx
  if cfg.checkMistakes && ctx.rlm_mistake_context == "" then
    match general.checkMistakes userText with
    | [] => ctx
    | m :: _ => { ctx with mistake_correction := general.formatMistake m }
  else ctx

/-- The `# TIER 3: Lesson-specific content` block of
`get_context_for_query`: fetch the best-matching lesson's content through
the content cache and format it (`matchQuery` stands for
`lesson_manager.match_query`, `fetch` for the Convex call inside
`lesson_manager.get_content`). -/
def applyTier3 (lessonIndex : List LessonManager.LessonIndexEntry)
    (matchQuery : String → List LessonManager.LessonIndexEntry)
    (fetch : String → Except Unit (Option LessonManager.JsonContent))
    (cfg : Config) (userText : String) (ctx : KnowledgeContext)
    (lessonState : LessonManager.CacheState LessonManager.JsonContent) :
    KnowledgeContext × LessonManager.CacheState LessonManager.JsonContent :=
  if cfg.includeLesson && !lessonIndex.isEmpty then
    match matchQuery userText with
    | [] => (ctx, lessonState)
    | best :: _ =>
      match LessonManager.getContent (fetch best.content_id) best.content_id lessonState with
      | (some content, st', _) =>
        ({ ctx with lesson_context := LessonManager.formatForContext content "all" }, st')
      | (none, st', _) => (ctx, st')
  else (ctx, lessonState)

/-- `get_context_for_query` (knowledge_integration.py lines 142–248): empty
context when not initialized, otherwise the three tier blocks applied in
order.  Returns the composed `KnowledgeContext` and the updated lesson
content cache. -/
def getContextForQuery {G1 V1 M1 G2 V2 M2 : Type}
    (rlmLoaded : Bool) (rlm : Tier G1 V1 M1) (general : Tier G2 V2 M2)
    (lessonIndex : List LessonManager.LessonIndexEntry)
    (matchQuery : String → List LessonManager.LessonIndexEntry)
    (fetch : String → Except Unit (Option LessonManager.JsonContent))
    (initialized : Bool) (cfg : Config)
    (lessonState : LessonManager.CacheState LessonManager.JsonContent)
    (userText : String) :
    KnowledgeContext × LessonManager.CacheState LessonManager.JsonContent :=
  let ctx : KnowledgeContext := {}
  if !initialized then (ctx, lessonState)
  else
    applyTier3 lessonIndex matchQuery fetch cfg userText
      (applyTier2 general cfg userText (applyTier1 rlmLoaded rlm cfg userText ctx))
      lessonState

end Knowledge

/-! ## Mistake-pattern loading (`rlm_knowledge.py` and `general_knowledge.py`)

`re.compile(pattern, re.IGNORECASE)` enters as the explicit `compile`
parameter (`none` models a raised `re.error`, `some` a compiled pattern of
opaque type `β`). -/

namespace RLM

/-- `RLMMistakePattern` after `__post_init__` has run: `compiled_pattern`
holds the compilation result (`none` when `re.compile` raised and
`__post_init__` stored `None`). -/
structure MistakePattern (β : Type) where
  pattern : String
  correction : String
  explanation : String
  category : String
  compiledPattern : Option β

/-- The `RLMMistakePattern(...)` construction: `__post_init__` immediately
compiles `pattern`, leaving `compiled_pattern = None` on `re.error`. -/
def mkMistakePattern (compile : String → Option β)
    (pattern correction explanation category : String) : MistakePattern β :=
  { pattern := pattern, correction := correction, explanation := explanation,
    category := category, compiledPattern := compile pattern }

/-- A raw record of the `mistakePatterns` list in `rlmOptimized` data. -/
structure MistakeRecord where
  pattern : String := ""
  correction : String := ""
  explanation : String := ""
  category : String := ""
  deriving Repr, DecidableEq

/-- The `for pattern_data in mistake_patterns` loop of
`RLMKnowledgeProvider.load` (rlm_knowledge.py lines 160–170): construct
each pattern (which compiles the regex) and append it to
`_mistake_patterns` only if `compiled_pattern` is truthy. -/
def loadMistakePatterns (compile : String → Option β)
    (existing : List (MistakePattern β)) (records : List MistakeRecord) :
    List (MistakePattern β) :=
  records.foldl
    (fun acc r =>
      let p := mkMistakePattern compile r.pattern r.correction r.explanation r.category
      if p.compiledPattern.isSome then acc ++ [p] else acc)
    existing

end RLM

namespace General

/-- The `CommonMistake` dataclass of general_knowledge.py: `pattern` is a
plain string, matched later by substring containment — never compiled. -/
structure CommonMistake where
  id : String
  pattern : String
  correct : String
  explanation_en : String := ""
  explanation_de : String := ""
  frequency : String := "common"
  level : String := "A1"
  deriving Repr, DecidableEq

/-- The two mistake indexes of `GeneralKnowledgeBase`:
`_mistakes` (id → mistake) and `_mistake_patterns`
(lowercased pattern → mistake). -/
structure MistakeIndex where
  mistakes : List (String × CommonMistake) := []
  mistakePatterns : List (String × CommonMistake) := []
  deriving Repr, DecidableEq

/-- `_add_mistake` (general_knowledge.py lines 332–335): store the record
unconditionally under its id and its lowercased pattern.  There is no
compilation step and no failure path. -/
def addMistake (idx : MistakeIndex) (m : CommonMistake) : MistakeIndex :=
  { mistakes := dictInsert m.id m idx.mistakes,
    mistakePatterns := dictInsert (pyLower m.pattern) m idx.mistakePatterns }

/-- `check_for_mistakes` (general_knowledge.py lines 402–411): a pattern
"matches" when it occurs as a plain substring of the lowercased text. -/
def checkForMistakes (idx : MistakeIndex) (text : String) : List CommonMistake :=
  (idx.mistakePatterns.filter
    (fun p => decide (p.1.data <:+: lowerL text.data))).map Prod.snd

end General

/-! ## Generic association-list lemmas -/

theorem find?_append_left {α : Type _} {l1 l2 : List α} {p : α → Bool} {x : α}
    (h : l1.find? p = some x) : (l1 ++ l2).find? p = some x := by
  induction l1 with
  | nil => simp [List.find?] at h
  | cons a t ih =>
    by_cases hp : p a
    · simp_all [List.find?_cons_of_pos]
    · simp_all [List.find?_cons_of_neg]

theorem mem_dictInsert_self {β : Type _} (k : String) (v : β) (l : List (String × β)) :
    (k, v) ∈ dictInsert k v l := by
  induction l with
  | nil => simp [dictInsert]
  | cons a t ih =>
    obtain ⟨k', v'⟩ := a
    by_cases h : k' == k
    · have : k' = k := by simpa using h
      simp [dictInsert, h, this]
    · simp only [dictInsert, h, if_neg]
      exact List.mem_cons_of_mem _ ih

theorem dictInsert_of_not_mem {β : Type _} {k : String} {l : List (String × β)}
    (h : k ∉ l.map Prod.fst) (v : β) : dictInsert k v l = l ++ [(k, v)] := by
  induction l with
  | nil => rfl
  | cons a t ih =>
    obtain ⟨k', v'⟩ := a
    simp only [List.map_cons, List.mem_cons] at h
    push_neg at h
    have hne : (k' == k) = false := by
      simp [BEq.beq]
      exact fun hc => h.1 hc.symm
    simp [dictInsert, hne, ih h.2]

/-! ## Claim C10 — the lesson content cache never evicts, refreshes or
expires -/

namespace LessonManager

theorem getContent_cached_eq {γ : Type} {st : CacheState γ} {cid k : String} {w : γ}
    (hf : st.contentCache.find? (fun p => p.1 == cid) = some (k, w))
    (f : Except Unit (Option γ)) : getContent f cid st = (some w, st, false) := by
  unfold getContent; rw [hf]

theorem getContent_miss_eq {γ : Type} {st : CacheState γ} {cid : String}
    (hf : st.contentCache.find? (fun p => p.1 == cid) = none) :
    (∀ e, getContent (γ := γ) (.error e) cid st = (none, st, true))
    ∧ getContent (γ := γ) (.ok none) cid st = (none, st, true)
    ∧ ∀ c : γ, getContent (.ok (some c)) cid st
        = (some c, { st with contentCache := st.contentCache ++ [(cid, c)] }, true) := by
  refine ⟨fun e => ?_, ?_, fun c => ?_⟩ <;> (unfold getContent; rw [hf])

theorem getContent_of_cachedAt {γ : Type} {st : CacheState γ} {cid : String} {v : γ}
    (h : cachedAt st cid = some v) (f : Except Unit (Option γ)) :
    getContent f cid st = (some v, st, false) := by
  unfold cachedAt at h
  cases hf : st.contentCache.find? (fun p => p.1 == cid) with
  | none => rw [hf] at h; simp at h
  | some p =>
    obtain ⟨k, w⟩ := p
    rw [hf] at h
    simp only [Option.map] at h
    cases h
    exact getContent_cached_eq hf f

theorem cachedAt_getContent {γ : Type} {st : CacheState γ} {cid : String} {v : γ}
    (h : cachedAt st cid = some v) (f : Except Unit (Option γ)) (cid' : String) :
    cachedAt (getContent f cid' st).2.1 cid = some v := by
  cases hf : st.contentCache.find? (fun p => p.1 == cid') with
  | some p =>
    obtain ⟨k, w⟩ := p
    rw [getContent_cached_eq hf f]
    exact h
  | none =>
    cases f with
    | error e => rw [(getContent_miss_eq hf).1 e]; exact h
    | ok o =>
      cases o with
      | none => rw [(getContent_miss_eq hf).2.1]; exact h
      | some c =>
        rw [(getContent_miss_eq hf).2.2 c]
        unfold cachedAt at h ⊢
        simp only [List.find?_append]
        cases hf2 : st.contentCache.find? (fun p => p.1 == cid) with
        | none => rw [hf2] at h; simp at h
        | some q => rw [hf2] at h; simpa using h

theorem cachedAt_of_getContent_some {γ : Type} {st : CacheState γ} {cid : String}
    {v : γ} {f : Except Unit (Option γ)}
    (h : (getContent f cid st).1 = some v) :
    cachedAt (getContent f cid st).2.1 cid = some v := by
  cases hf : st.contentCache.find? (fun p => p.1 == cid) with
  | some p =>
    obtain ⟨k, w⟩ := p
    rw [getContent_cached_eq hf f] at h ⊢
    simp only [] at h
    unfold cachedAt
    rw [hf]
    simpa using h
  | none =>
    cases f with
    | error e => rw [(getContent_miss_eq hf).1 e] at h; simp at h
    | ok o =>
      cases o with
      | none => rw [(getContent_miss_eq hf).2.1] at h; simp at h
      | some c =>
        rw [(getContent_miss_eq hf).2.2 c] at h ⊢
        simp only [] at h
        cases h
        unfold cachedAt
        simp only [List.find?_append, hf]
        simp

theorem cachedAt_runCalls {γ : Type} {st : CacheState γ} {cid : String} {v : γ}
    (h : cachedAt st cid = some v)
    (calls : List (String × Except Unit (Option γ))) :
    cachedAt (runCalls calls st) cid = some v := by
  induction calls generalizing st with
  | nil => simpa [runCalls] using h
  | cons c cs ih =>
    have h1 := cachedAt_getContent h c.2 c.1
    simpa [runCalls, List.foldl_cons] using ih h1

end LessonManager

/-- C10: once `get_content` has returned a non-`None` value for a content
id, every later `get_content` call with that id — after any sequence of
other calls, with any fetch outcomes — returns exactly that stored value,
performs no fetch, and leaves the cache unchanged: the curriculum content
cache has no TTL and no capacity bound and never evicts, refreshes or
expires an entry. -/
theorem claim_C10 {γ : Type} (fetch : Except Unit (Option γ)) (cid : String)
    (st : LessonManager.CacheState γ) (v : γ)
    (h : (LessonManager.getContent fetch cid st).1 = some v)
    (calls : List (String × Except Unit (Option γ)))
    (fetchLater : Except Unit (Option γ)) :
    LessonManager.getContent fetchLater cid
        (LessonManager.runCalls calls (LessonManager.getContent fetch cid st).2.1)
      = (some v,
         LessonManager.runCalls calls (LessonManager.getContent fetch cid st).2.1,
         false) := by
  have h1 := LessonManager.cachedAt_of_getContent_some h
  have h2 := LessonManager.cachedAt_runCalls h1 calls
  exact LessonManager.getContent_of_cachedAt h2 fetchLater

/-! ## Claims C3, C4, C9 — LRU eviction, TTL expiry, and `None` results -/

namespace RAGCache

theorem getByKey_maxSize {α : Type} (now : Nat) (key : String) (st : State α) :
    (getByKey now key st).2.maxSize = st.maxSize := by
  unfold getByKey
  cases st.entries.find? (fun p => p.1 == key) with
  | none => rfl
  | some p =>
    obtain ⟨k, e⟩ := p
    by_cases hx : e.timestamp + st.ttl < now <;> simp [hx]

theorem getByKey_none_of_all_none {α : Type} {st : State α} {key : String} (now : Nat)
    (h : ∀ e : CacheEntry α, (key, e) ∈ st.entries → e.result = none) :
    (getByKey now key st).1 = none := by
  unfold getByKey
  cases hf : st.entries.find? (fun p => p.1 == key) with
  | none => rfl
  | some p =>
    obtain ⟨k, e⟩ := p
    have hm := List.mem_of_find?_eq_some hf
    have hk : k = key := by simpa using List.find?_some hf
    subst hk
    have he := h e hm
    by_cases hx : e.timestamp + st.ttl < now
    · simp [hx]
    · simp [hx, he]

theorem evictLoop_isSome {α : Type} {maxSize : Nat} (h : 1 ≤ maxSize)
    (l : List (String × CacheEntry α)) (evs : Nat) :
    ∃ p, evictLoop maxSize l evs = some p := by
  induction l generalizing evs with
  | nil =>
    refine ⟨([], evs), ?_⟩
    unfold evictLoop
    rw [if_neg (by omega)]
  | cons x t ih =>
    by_cases hc : maxSize ≤ (x :: t).length
    · obtain ⟨p, hp⟩ := ih (evs + 1)
      exact ⟨p, by unfold evictLoop; rw [if_pos hc]; exact hp⟩
    · exact ⟨(x :: t, evs), by unfold evictLoop; rw [if_neg hc]⟩

theorem setByKey_isSome {α : Type} {st : State α} (h : 1 ≤ st.maxSize)
    (now : Nat) (key : String) (v : Option α) :
    ∃ st', setByKey now key v st = some st' := by
  obtain ⟨p, hp⟩ := evictLoop_isSome h st.entries 0
  exact ⟨_, by unfold setByKey; rw [hp]⟩

theorem keys_eraseP {β : Type} (l : List (String × β)) (key : String) :
    (l.eraseP (fun p => p.1 == key)).map Prod.fst
      = (l.map Prod.fst).eraseP (fun k => k == key) := by
  induction l with
  | nil => rfl
  | cons a t ih =>
    obtain ⟨k, v⟩ := a
    by_cases h : (k == key)
    · simp [List.eraseP_cons, h]
    · simp [List.eraseP_cons, h, ih]

theorem not_mem_eraseP_beq {l : List String} (hnd : l.Nodup) (key : String) :
    key ∉ l.eraseP (fun k => k == key) := by
  induction l with
  | nil => simp
  | cons a t ih =>
    rcases List.nodup_cons.mp hnd with ⟨ha, ht⟩
    by_cases h : (a == key)
    · have hak : a = key := by simpa using h
      subst hak
      simpa [List.eraseP_cons, h] using ha
    · have hka : ¬ key = a := fun hc => by simp [hc] at h
      simp [List.eraseP_cons, h, List.mem_cons, hka]
      exact ih ht

theorem evictLoop_at_capacity {α : Type} {maxSize : Nat} (h1 : 1 ≤ maxSize)
    {l : List (String × CacheEntry α)} (hlen : l.length = maxSize) (evs : Nat) :
    evictLoop maxSize l evs = some (l.tail, evs + 1) := by
  cases l with
  | nil => simp at hlen; omega
  | cons x t =>
    unfold evictLoop
    rw [if_pos (le_of_eq hlen.symm)]
    simp only [List.length_cons] at hlen
    cases t with
    | nil => unfold evictLoop; rw [if_neg (by omega)]; rfl
    | cons y t' =>
      unfold evictLoop
      rw [if_neg (by simp at hlen ⊢; omega)]
      rfl

theorem setByKey_at_capacity {α : Type} (st : State α) (now : Nat) (key : String)
    (v : Option α) (h1 : 1 ≤ st.maxSize) (hlen : st.entries.length = st.maxSize)
    (hnew : key ∉ keys st) :
    setByKey now key v st
      = some { st with
                entries := st.entries.tail ++ [(key, ⟨v, now, 0⟩)],
                evictions := st.evictions + 1 } := by
  unfold setByKey
  rw [evictLoop_at_capacity h1 hlen 0]
  have htail : key ∉ st.entries.tail.map Prod.fst := by
    intro hc
    apply hnew
    have hsub : st.entries.tail.map Prod.fst ⊆ st.entries.map Prod.fst :=
      List.map_subset _ (List.tail_subset _)
    exact hsub hc
  simp [dictInsert_of_not_mem htail]

end RAGCache

/-- Counterexample to C3 as stated: with `max_size = 1`, a successful `get`
on `"a"` promotes it to most-recently-used, yet the very next over-capacity
insert (of the new key `"b"`) evicts exactly that promoted entry — so "it is
not the one evicted by the next over-capacity insert" fails for a cache of
capacity one. -/
theorem claim_C3_cex :
    ((RAGCache.getByKey 1 "a"
        ({ maxSize := 1, ttl := 100, entries := [("a", ⟨some 5, 0, 0⟩)] }
          : RAGCache.State Nat)).1 = some 5)
    ∧ ((RAGCache.keys (RAGCache.getByKey 1 "a"
        ({ maxSize := 1, ttl := 100, entries := [("a", ⟨some 5, 0, 0⟩)] }
          : RAGCache.State Nat)).2).getLast? = some "a")
    ∧ ((RAGCache.setByKey 2 "b" (some 6) (RAGCache.getByKey 1 "a"
        ({ maxSize := 1, ttl := 100, entries := [("a", ⟨some 5, 0, 0⟩)] }
          : RAGCache.State Nat)).2).map RAGCache.keys = some ["b"]) := by
  decide

/-- C3 (amended): inserting a new key into a cache at capacity evicts
exactly the least-recently-used entry (the head of the access order) and
keeps every other entry in order; a successful `get` promotes its entry to
most-recently-used, and — provided the cache holds at least two entries
(`max_size ≥ 2`) — that promoted entry survives the next over-capacity
insert.  (With `max_size = 1` the promoted entry is itself the LRU entry and
is evicted, per the counterexample.) -/
theorem claim_C3_amended {α : Type} (st : RAGCache.State α) :
    (∀ (now : Nat) (key : String) (v : Option α),
        1 ≤ st.maxSize → st.entries.length = st.maxSize →
        key ∉ RAGCache.keys st →
        RAGCache.setByKey now key v st
          = some { st with
                    entries := st.entries.tail ++ [(key, ⟨v, now, 0⟩)],
                    evictions := st.evictions + 1 })
    ∧ (∀ (nowG : Nat) (key : String) (r : α),
        (RAGCache.getByKey nowG key st).1 = some r →
        (RAGCache.keys (RAGCache.getByKey nowG key st).2).getLast? = some key
        ∧ (∀ (now' : Nat) (key' : String) (v' : Option α),
            2 ≤ st.maxSize →
            (RAGCache.getByKey nowG key st).2.entries.length = st.maxSize →
            key' ∉ RAGCache.keys (RAGCache.getByKey nowG key st).2 →
            ∃ st2,
              RAGCache.setByKey now' key' v' (RAGCache.getByKey nowG key st).2
                  = some st2
                ∧ key ∈ RAGCache.keys st2)) := by
  constructor
  · intro now key v h1 hlen hnew
    exact RAGCache.setByKey_at_capacity st now key v h1 hlen hnew
  · intro nowG key r hget
    rcases hf : st.entries.find? (fun p => p.1 == key) with _ | ⟨k, e⟩
    · exfalso
      unfold RAGCache.getByKey at hget
      rw [hf] at hget
      simp at hget
    · have hk : k = key := by simpa using List.find?_some hf
      rw [hk] at hf
      by_cases hx : e.timestamp + st.ttl < nowG
      · exfalso
        unfold RAGCache.getByKey at hget
        rw [hf] at hget
        simp [hx] at hget
      · have hstate : RAGCache.getByKey nowG key st
            = (e.result,
               { st with
                  entries := st.entries.eraseP (fun p => p.1 == key)
                    ++ [(key, { e with hit_count := e.hit_count + 1 })],
                  hits := st.hits + 1 }) := by
          unfold RAGCache.getByKey
          rw [hf]
          simp [hx]
        rw [hstate]
        constructor
        · simp [RAGCache.keys, List.getLast?_concat]
        · intro now' key' v' hcap2 hlen1 hnew
          dsimp only [] at hlen1 hnew
          have h1 : 1 ≤ ({ st with
              entries := st.entries.eraseP (fun p => p.1 == key)
                ++ [(key, { e with hit_count := e.hit_count + 1 })],
              hits := st.hits + 1 } : RAGCache.State α).maxSize := by
            show 1 ≤ st.maxSize
            omega
          have hset := RAGCache.setByKey_at_capacity _ now' key' v' h1 hlen1 hnew
          refine ⟨_, hset, ?_⟩
          have hEne : st.entries.eraseP (fun p => p.1 == key) ≠ [] := by
            intro h0
            rw [h0] at hlen1
            simp at hlen1
            omega
          obtain ⟨a, rest, hEeq⟩ := List.exists_cons_of_ne_nil hEne
          show key ∈ RAGCache.keys _
          simp [RAGCache.keys, hEeq]

/-- Witness for the amended C3: a two-entry cache at capacity; `get` on
`"a"` promotes it, and inserting the fresh key `"c"` evicts `"b"` (the LRU)
while `"a"` survives. -/
theorem claim_C3_amended_witness :
    ∃ st2,
      RAGCache.setByKey 3 "c" (some 9)
          (RAGCache.getByKey 2 "a"
            ({ maxSize := 2, ttl := 100,
               entries := [("a", ⟨some 5, 0, 0⟩), ("b", ⟨some 6, 1, 0⟩)] }
              : RAGCache.State Nat)).2
          = some st2
        ∧ "a" ∈ RAGCache.keys st2 :=
  ((claim_C3_amended
      ({ maxSize := 2, ttl := 100,
         entries := [("a", ⟨some 5, 0, 0⟩), ("b", ⟨some 6, 1, 0⟩)] }
        : RAGCache.State Nat)).2 2 "a" 5 (by decide)).2 3 "c" (some 9)
    (by decide) (by decide) (by decide)

/-- C9: when the fetch function returns `None`, `get_or_fetch` invokes it
and reports `was_cached = false` on every call — even on a state in which an
identical call has already stored that `None` result (hypothesis: every
entry stored under the key holds `None`), within capacity (`max_size ≥ 1`)
and regardless of TTL — because a stored `None` is indistinguishable from an
absent key on lookup; and whenever `get_or_fetch` reports
`was_cached = true`, the returned value is non-`None`. -/
theorem claim_C9 {α : Type} (nowGet nowSet : Nat) (key : String) (st : RAGCache.State α)
    (hcap : 1 ≤ st.maxSize)
    (hnone : ∀ e : RAGCache.CacheEntry α, (key, e) ∈ st.entries → e.result = none) :
    (∃ st2, RAGCache.getOrFetchByKey nowGet nowSet key (none : Option α) st
        = some ((none, false), st2, true))
    ∧ ∀ (fr res : Option α) (st2 : RAGCache.State α) (fi : Bool),
        RAGCache.getOrFetchByKey nowGet nowSet key fr st = some ((res, true), st2, fi)
          → res.isSome := by
  constructor
  · have h1 : (RAGCache.getByKey nowGet key st).1 = none :=
      RAGCache.getByKey_none_of_all_none nowGet hnone
    rcases hgp : RAGCache.getByKey nowGet key st with ⟨r, st1⟩
    have hr : r = none := by rw [hgp] at h1; exact h1
    subst hr
    have hcap1 : 1 ≤ st1.maxSize := by
      have h2 := RAGCache.getByKey_maxSize nowGet key st
      rw [hgp] at h2
      simp at h2
      omega
    obtain ⟨st2, hset⟩ := RAGCache.setByKey_isSome hcap1 nowSet key (none : Option α)
    refine ⟨st2, ?_⟩
    unfold RAGCache.getOrFetchByKey
    rw [hgp]
    simp [hset]
  · intro fr res st2 fi h
    unfold RAGCache.getOrFetchByKey at h
    rcases hgp : RAGCache.getByKey nowGet key st with ⟨r, st1⟩
    rw [hgp] at h
    cases r with
    | some v =>
      simp only [Option.some.injEq, Prod.mk.injEq] at h
      rcases h with ⟨⟨hv, -⟩, -⟩
      rw [← hv]
      rfl
    | none =>
      cases hset : RAGCache.setByKey nowSet key fr st1 with
      | none => simp [hset] at h
      | some st' => simp [hset] at h

/-- Witness for C9: a cache already holding the stored `None` result for
`"k"` fetches again and reports `was_cached = false`. -/
theorem claim_C9_witness :
    ∃ st2, RAGCache.getOrFetchByKey 1 2 "k" (none : Option Nat)
        { maxSize := 100, ttl := 300, entries := [("k", ⟨none, 0, 0⟩)] }
      = some ((none, false), st2, true) :=
  (claim_C9 1 2 "k" _ (by decide)
    (fun e he => by simp at he; rw [he])).1

/-- C4: for an entry present under a key, (a) when its age exceeds the TTL a
lookup misses and drops it (the key is gone from the cache), and the
corresponding `get_or_fetch` invokes `fetch_fn` again with
`was_cached = false`; (b) within TTL a stored non-`None` value is returned
with `was_cached = true` and no fetch. -/
theorem claim_C4 {α : Type} (now nowSet : Nat) (key : String) (st : RAGCache.State α)
    (e : RAGCache.CacheEntry α)
    (hfind : st.entries.find? (fun p => p.1 == key) = some (key, e))
    (hnd : (RAGCache.keys st).Nodup) :
    (e.timestamp + st.ttl < now →
        (RAGCache.getByKey now key st).1 = none
        ∧ key ∉ RAGCache.keys (RAGCache.getByKey now key st).2
        ∧ (1 ≤ st.maxSize → ∀ fr : Option α,
            ∃ st2, RAGCache.getOrFetchByKey now nowSet key fr st
              = some ((fr, false), st2, true)))
    ∧ (∀ v : α, e.result = some v → ¬ (e.timestamp + st.ttl < now) →
        ∀ fr : Option α,
          ∃ st2, RAGCache.getOrFetchByKey now nowSet key fr st
            = some ((some v, true), st2, false)) := by
  constructor
  · intro hstale
    have hget : RAGCache.getByKey now key st
        = (none, { st with
                    entries := st.entries.eraseP (fun p => p.1 == key),
                    misses := st.misses + 1 }) := by
      unfold RAGCache.getByKey
      rw [hfind]
      simp [hstale]
    refine ⟨by rw [hget], ?_, ?_⟩
    · rw [hget]
      show key ∉ (st.entries.eraseP (fun p => p.1 == key)).map Prod.fst
      rw [RAGCache.keys_eraseP]
      exact RAGCache.not_mem_eraseP_beq hnd key
    · intro hcap fr
      have hcap1 : 1 ≤ ({ st with
          entries := st.entries.eraseP (fun p => p.1 == key),
          misses := st.misses + 1 } : RAGCache.State α).maxSize := hcap
      obtain ⟨st2, hset⟩ := RAGCache.setByKey_isSome hcap1 nowSet key fr
      refine ⟨st2, ?_⟩
      unfold RAGCache.getOrFetchByKey
      rw [hget]
      simp [hset]
  · intro v hv hfresh fr
    have hget : RAGCache.getByKey now key st
        = (some v,
           { st with
              entries := st.entries.eraseP (fun p => p.1 == key)
                ++ [(key, { e with hit_count := e.hit_count + 1 })],
              hits := st.hits + 1 }) := by
      unfold RAGCache.getByKey
      rw [hfind]
      simp [hfresh, hv]
    refine ⟨{ st with
        entries := st.entries.eraseP (fun p => p.1 == key)
          ++ [(key, { e with hit_count := e.hit_count + 1 })],
        hits := st.hits + 1 }, ?_⟩
    unfold RAGCache.getOrFetchByKey
    rw [hget]

/-- Witness for C4: the same singleton cache misses (and fetches) at
`now = 11` when the entry aged past its TTL of 10, and hits with
`was_cached = true` at `now = 5`. -/
theorem claim_C4_witness :
    (∃ st2, RAGCache.getOrFetchByKey 11 12 "k" (some 9)
        ({ maxSize := 100, ttl := 10, entries := [("k", ⟨some 3, 0, 0⟩)] }
          : RAGCache.State Nat)
      = some ((some 9, false), st2, true))
    ∧ (∃ st2, RAGCache.getOrFetchByKey 5 6 "k" (some 9)
        ({ maxSize := 100, ttl := 10, entries := [("k", ⟨some 3, 0, 0⟩)] }
          : RAGCache.State Nat)
      = some ((some 3, true), st2, false)) :=
  ⟨((claim_C4 11 12 "k"
        { maxSize := 100, ttl := 10, entries := [("k", ⟨some 3, 0, 0⟩)] }
        ⟨some 3, 0, 0⟩ (by decide) (by decide)).1 (by decide)).2.2
      (by decide) (some 9),
   (claim_C4 5 6 "k"
        { maxSize := 100, ttl := 10, entries := [("k", ⟨some 3, 0, 0⟩)] }
        ⟨some 3, 0, 0⟩ (by decide) (by decide)).2 3 rfl (by decide) (some 9)⟩

/-! ## Claim C1 — per-category suppression of Tier 2 by Tier 1 -/

namespace Knowledge

theorem applyTier1_keeps {G1 V1 M1 : Type} (rlmLoaded : Bool) (rlm : Tier G1 V1 M1)
    (cfg : Config) (q : String) (ctx : KnowledgeContext) :
    (applyTier1 rlmLoaded rlm cfg q ctx).grammar_context = ctx.grammar_context
    ∧ (applyTier1 rlmLoaded rlm cfg q ctx).vocabulary_context = ctx.vocabulary_context
    ∧ (applyTier1 rlmLoaded rlm cfg q ctx).mistake_correction = ctx.mistake_correction := by
  unfold applyTier1
  dsimp only []
  refine ⟨?_, ?_, ?_⟩ <;> (repeat' split) <;> rfl

theorem applyTier2_keeps_rlm {G2 V2 M2 : Type} (general : Tier G2 V2 M2)
    (cfg : Config) (q : String) (ctx : KnowledgeContext) :
    (applyTier2 general cfg q ctx).rlm_grammar_context = ctx.rlm_grammar_context
    ∧ (applyTier2 general cfg q ctx).rlm_vocabulary_context = ctx.rlm_vocabulary_context
    ∧ (applyTier2 general cfg q ctx).rlm_mistake_context = ctx.rlm_mistake_context := by
  unfold applyTier2
  dsimp only []
  refine ⟨?_, ?_, ?_⟩ <;> (repeat' split) <;> rfl

theorem applyTier2_grammar_of_rlm {G2 V2 M2 : Type} {general : Tier G2 V2 M2}
    {cfg : Config} {q : String} {ctx : KnowledgeContext}
    (h : ctx.rlm_grammar_context ≠ "") :
    (applyTier2 general cfg q ctx).grammar_context = ctx.grammar_context := by
  have hb : (ctx.rlm_grammar_context == "") = false := by simpa using h
  unfold applyTier2
  dsimp only []
  (repeat' split) <;> simp_all

theorem applyTier2_vocabulary_of_rlm {G2 V2 M2 : Type} {general : Tier G2 V2 M2}
    {cfg : Config} {q : String} {ctx : KnowledgeContext}
    (h : ctx.rlm_vocabulary_context ≠ "") :
    (applyTier2 general cfg q ctx).vocabulary_context = ctx.vocabulary_context := by
  have hb : (ctx.rlm_vocabulary_context == "") = false := by simpa using h
  unfold applyTier2
  dsimp only []
  (repeat' split) <;> simp_all

theorem applyTier2_mistake_of_rlm {G2 V2 M2 : Type} {general : Tier G2 V2 M2}
    {cfg : Config} {q : String} {ctx : KnowledgeContext}
    (h : ctx.rlm_mistake_context ≠ "") :
    (applyTier2 general cfg q ctx).mistake_correction = ctx.mistake_correction := by
  have hb : (ctx.rlm_mistake_context == "") = false := by simpa using h
  unfold applyTier2
  dsimp only []
  (repeat' split) <;> simp_all

theorem applyTier3_keeps (lessonIndex : List LessonManager.LessonIndexEntry)
    (matchQuery : String → List LessonManager.LessonIndexEntry)
    (fetch : String → Except Unit (Option LessonManager.JsonContent))
    (cfg : Config) (q : String) (ctx : KnowledgeContext)
    (st : LessonManager.CacheState LessonManager.JsonContent) :
    ((applyTier3 lessonIndex matchQuery fetch cfg q ctx st).1).rlm_grammar_context
        = ctx.rlm_grammar_context
    ∧ ((applyTier3 lessonIndex matchQuery fetch cfg q ctx st).1).rlm_vocabulary_context
        = ctx.rlm_vocabulary_context
    ∧ ((applyTier3 lessonIndex matchQuery fetch cfg q ctx st).1).rlm_mistake_context
        = ctx.rlm_mistake_context
    ∧ ((applyTier3 lessonIndex matchQuery fetch cfg q ctx st).1).grammar_context
        = ctx.grammar_context
    ∧ ((applyTier3 lessonIndex matchQuery fetch cfg q ctx st).1).vocabulary_context
        = ctx.vocabulary_context
    ∧ ((applyTier3 lessonIndex matchQuery fetch cfg q ctx st).1).mistake_correction
        = ctx.mistake_correction := by
  unfold applyTier3
  refine ⟨?_, ?_, ?_, ?_, ?_, ?_⟩ <;> (repeat' split) <;> rfl

end Knowledge

/-- C1: the composed context never carries both a Tier-1 (RLM) and a Tier-2
(built-in) contribution for the same category.  (i) For every query and
every behaviour of the providers, the context returned by
`get_context_for_query` has an empty built-in slot for each category whose
RLM slot is non-empty; (ii) independently, `KnowledgeContext.to_string`
suppresses the built-in slot of a category whose RLM slot is non-empty, so
the built-in contribution is absent from the produced string (the string
is unchanged when that slot is blanked). -/
theorem claim_C1 {G1 V1 M1 G2 V2 M2 : Type}
    (rlmLoaded : Bool) (rlm : Knowledge.Tier G1 V1 M1)
    (general : Knowledge.Tier G2 V2 M2)
    (lessonIndex : List LessonManager.LessonIndexEntry)
    (matchQuery : String → List LessonManager.LessonIndexEntry)
    (fetch : String → Except Unit (Option LessonManager.JsonContent))
    (initialized : Bool) (cfg : Knowledge.Config)
    (lessonState : LessonManager.CacheState LessonManager.JsonContent)
    (userText : String) :
    (((Knowledge.getContextForQuery rlmLoaded rlm general lessonIndex matchQuery
          fetch initialized cfg lessonState userText).1.rlm_grammar_context = ""
      ∨ (Knowledge.getContextForQuery rlmLoaded rlm general lessonIndex matchQuery
          fetch initialized cfg lessonState userText).1.grammar_context = "")
     ∧ ((Knowledge.getContextForQuery rlmLoaded rlm general lessonIndex matchQuery
          fetch initialized cfg lessonState userText).1.rlm_vocabulary_context = ""
      ∨ (Knowledge.getContextForQuery rlmLoaded rlm general lessonIndex matchQuery
          fetch initialized cfg lessonState userText).1.vocabulary_context = "")
     ∧ ((Knowledge.getContextForQuery rlmLoaded rlm general lessonIndex matchQuery
          fetch initialized cfg lessonState userText).1.rlm_mistake_context = ""
      ∨ (Knowledge.getContextForQuery rlmLoaded rlm general lessonIndex matchQuery
          fetch initialized cfg lessonState userText).1.mistake_correction = ""))
    ∧ (∀ c : Knowledge.KnowledgeContext,
        (c.rlm_grammar_context ≠ "" →
          Knowledge.toContextString c
            = Knowledge.toContextString { c with grammar_context := "" })
        ∧ (c.rlm_vocabulary_context ≠ "" →
          Knowledge.toContextString c
            = Knowledge.toContextString { c with vocabulary_context := "" })
        ∧ (c.rlm_mistake_context ≠ "" →
          Knowledge.toContextString c
            = Knowledge.toContextString { c with mistake_correction := "" })) := by
  constructor
  · cases initialized with
    | false =>
      unfold Knowledge.getContextForQuery
      exact ⟨Or.inl rfl, Or.inl rfl, Or.inl rfl⟩
    | true =>
      have hrun : Knowledge.getContextForQuery rlmLoaded rlm general lessonIndex
          matchQuery fetch true cfg lessonState userText
          = Knowledge.applyTier3 lessonIndex matchQuery fetch cfg userText
              (Knowledge.applyTier2 general cfg userText
                (Knowledge.applyTier1 rlmLoaded rlm cfg userText {}))
              lessonState := by
        unfold Knowledge.getContextForQuery
        rfl
      rw [hrun]
      have h3 := Knowledge.applyTier3_keeps lessonIndex matchQuery fetch cfg userText
        (Knowledge.applyTier2 general cfg userText
          (Knowledge.applyTier1 rlmLoaded rlm cfg userText {})) lessonState
      have h2 := Knowledge.applyTier2_keeps_rlm general cfg userText
        (Knowledge.applyTier1 rlmLoaded rlm cfg userText {})
      have h1 := Knowledge.applyTier1_keeps rlmLoaded rlm cfg userText
        ({} : Knowledge.KnowledgeContext)
      refine ⟨?_, ?_, ?_⟩
      · by_cases hg : (Knowledge.applyTier2 general cfg userText
            (Knowledge.applyTier1 rlmLoaded rlm cfg userText {})).rlm_grammar_context = ""
        · exact Or.inl (by rw [h3.1, hg])
        · refine Or.inr ?_
          rw [h3.2.2.2.1, Knowledge.applyTier2_grammar_of_rlm
            (by rw [h2.1] at hg; exact hg), h1.1]
      · by_cases hg : (Knowledge.applyTier2 general cfg userText
            (Knowledge.applyTier1 rlmLoaded rlm cfg userText {})).rlm_vocabulary_context = ""
        · exact Or.inl (by rw [h3.2.1, hg])
        · refine Or.inr ?_
          rw [h3.2.2.2.2.1, Knowledge.applyTier2_vocabulary_of_rlm
            (by rw [h2.2.1] at hg; exact hg), h1.2.1]
      · by_cases hg : (Knowledge.applyTier2 general cfg userText
            (Knowledge.applyTier1 rlmLoaded rlm cfg userText {})).rlm_mistake_context = ""
        · exact Or.inl (by rw [h3.2.2.1, hg])
        · refine Or.inr ?_
          rw [h3.2.2.2.2.2, Knowledge.applyTier2_mistake_of_rlm
            (by rw [h2.2.2] at hg; exact hg), h1.2.2]
  · intro c
    refine ⟨fun h => ?_, fun h => ?_, fun h => ?_⟩ <;>
      (unfold Knowledge.toContextString Knowledge.toParts; simp [h])

/-- Witness for C1: with an RLM provider that supplies a grammar rule and a
built-in provider that would also supply one, the composed context keeps the
RLM grammar contribution and leaves the built-in grammar slot empty, and
blanking the built-in slot leaves `to_string` unchanged. -/
theorem claim_C1_witness :
    ((Knowledge.getContextForQuery true
        { lookupGrammar := fun _ => ["g"], formatGrammar := fun _ => "RLMG",
          lookupVocabulary := fun _ => (none : Option Unit),
          formatVocabulary := fun _ => "", checkMistakes := fun _ => ([] : List Unit),
          formatMistake := fun _ => "" }
        { lookupGrammar := fun _ => ["h"], formatGrammar := fun _ => "GENG",
          lookupVocabulary := fun _ => (none : Option Unit),
          formatVocabulary := fun _ => "", checkMistakes := fun _ => ([] : List Unit),
          formatMistake := fun _ => "" }
        [] (fun _ => []) (fun _ => .ok none) true {} { contentCache := [] }
        "question").1.rlm_grammar_context = ""
      ∨ (Knowledge.getContextForQuery true
        { lookupGrammar := fun _ => ["g"], formatGrammar := fun _ => "RLMG",
          lookupVocabulary := fun _ => (none : Option Unit),
          formatVocabulary := fun _ => "", checkMistakes := fun _ => ([] : List Unit),
          formatMistake := fun _ => "" }
        { lookupGrammar := fun _ => ["h"], formatGrammar := fun _ => "GENG",
          lookupVocabulary := fun _ => (none : Option Unit),
          formatVocabulary := fun _ => "", checkMistakes := fun _ => ([] : List Unit),
          formatMistake := fun _ => "" }
        [] (fun _ => []) (fun _ => .ok none) true {} { contentCache := [] }
        "question").1.grammar_context = "")
    ∧ (Knowledge.toContextString
          { rlm_grammar_context := "RLMG", grammar_context := "GENG" }
        = Knowledge.toContextString
          { rlm_grammar_context := "RLMG", grammar_context := "" }) :=
  ⟨(claim_C1 true
      { lookupGrammar := fun _ => ["g"], formatGrammar := fun _ => "RLMG",
        lookupVocabulary := fun _ => (none : Option Unit),
        formatVocabulary := fun _ => "", checkMistakes := fun _ => ([] : List Unit),
        formatMistake := fun _ => "" }
      { lookupGrammar := fun _ => ["h"], formatGrammar := fun _ => "GENG",
        lookupVocabulary := fun _ => (none : Option Unit),
        formatVocabulary := fun _ => "", checkMistakes := fun _ => ([] : List Unit),
        formatMistake := fun _ => "" }
      [] (fun _ => []) (fun _ => .ok none) true {} { contentCache := [] }
      "question").1.1,
   ((claim_C1 true
      { lookupGrammar := fun _ => (["g"] : List String),
        formatGrammar := fun _ => "RLMG",
        lookupVocabulary := fun _ => (none : Option Unit),
        formatVocabulary := fun _ => "", checkMistakes := fun _ => ([] : List Unit),
        formatMistake := fun _ => "" }
      { lookupGrammar := fun _ => (["h"] : List String),
        formatGrammar := fun _ => "GENG",
        lookupVocabulary := fun _ => (none : Option Unit),
        formatVocabulary := fun _ => "", checkMistakes := fun _ => ([] : List Unit),
        formatMistake := fun _ => "" }
      [] (fun _ => []) (fun _ => .ok none) true {} { contentCache := [] }
      "question").2
      { rlm_grammar_context := "RLMG", grammar_context := "GENG" }).1
     (by decide)⟩

/-! ## Claim C5 — total composition, local failure handling, curriculum cap -/

namespace LessonManager

theorem getContent_error_eq_ok_none {γ : Type} (e : Unit) (cid : String)
    (st : CacheState γ) :
    getContent (.error e) cid st = getContent (.ok none) cid st := by
  unfold getContent
  cases hf : st.contentCache.find? (fun p => p.1 == cid) with
  | some p => obtain ⟨k, w⟩ := p; rfl
  | none => rfl

theorem formatExerciseParts_cap (e : Exercise) :
    formatExerciseParts { e with items := e.items.take 5 } = formatExerciseParts e := by
  simp [formatExerciseParts, List.take_take]

theorem formatRuleParts_cap (r : ContentGrammarRule) :
    formatRuleParts { r with examples := r.examples.take 3 } = formatRuleParts r := by
  simp [formatRuleParts, List.take_take]

end LessonManager

namespace Knowledge

theorem applyTier1_lesson {G1 V1 M1 : Type} (rlmLoaded : Bool) (rlm : Tier G1 V1 M1)
    (cfg : Config) (q : String) (ctx : KnowledgeContext) :
    (applyTier1 rlmLoaded rlm cfg q ctx).lesson_context = ctx.lesson_context := by
  unfold applyTier1
  dsimp only []
  (repeat' split) <;> rfl

theorem applyTier2_lesson {G2 V2 M2 : Type} (general : Tier G2 V2 M2)
    (cfg : Config) (q : String) (ctx : KnowledgeContext) :
    (applyTier2 general cfg q ctx).lesson_context = ctx.lesson_context := by
  unfold applyTier2
  dsimp only []
  (repeat' split) <;> rfl

theorem applyTier3_fetch_error_eq (lessonIndex : List LessonManager.LessonIndexEntry)
    (matchQuery : String → List LessonManager.LessonIndexEntry)
    (cfg : Config) (q : String) (ctx : KnowledgeContext)
    (st : LessonManager.CacheState LessonManager.JsonContent) :
    applyTier3 lessonIndex matchQuery (fun _ => .error ()) cfg q ctx st
      = applyTier3 lessonIndex matchQuery (fun _ => .ok none) cfg q ctx st := by
  unfold applyTier3
  split
  · rw [show (matchQuery q) = matchQuery q from rfl]
    cases hmq : matchQuery q with
    | nil => rfl
    | cons best rest =>
      dsimp only []
      rw [LessonManager.getContent_error_eq_ok_none]
  · rfl

theorem applyTier3_error_empty (lessonIndex : List LessonManager.LessonIndexEntry)
    (matchQuery : String → List LessonManager.LessonIndexEntry)
    (cfg : Config) (q : String) (ctx : KnowledgeContext)
    (st : LessonManager.CacheState LessonManager.JsonContent)
    (hcc : st.contentCache = []) :
    applyTier3 lessonIndex matchQuery (fun _ => .error ()) cfg q ctx st = (ctx, st) := by
  unfold applyTier3
  split
  · cases hmq : matchQuery q with
    | nil => rfl
    | cons best rest =>
      dsimp only []
      have hg : LessonManager.getContent (Except.error ()) best.content_id st
          = (none, st, true) := by
        unfold LessonManager.getContent
        rw [hcc]
        rfl
      rw [hg]
  · rfl

end Knowledge

/-- C5: `get_context_for_query` is a total function of the tier outcomes —
a curriculum fetch failure is caught inside `get_content` and never
propagates.  (i) A run whose curriculum fetch raises is identical to a run
whose fetch merely returns nothing: the failing tier contributes nothing and
the other tiers are unaffected; (ii) on a fresh content cache a failing
fetch leaves the lesson slot empty and the cache untouched; (iii) the
curriculum portion is capped: `format_for_context` reads at most 5 items
per exercise, 3 examples per grammar rule and 15 vocabulary entries, so its
output equals that on the truncated content. -/
theorem claim_C5 {G1 V1 M1 G2 V2 M2 : Type}
    (rlmLoaded : Bool) (rlm : Knowledge.Tier G1 V1 M1)
    (general : Knowledge.Tier G2 V2 M2)
    (lessonIndex : List LessonManager.LessonIndexEntry)
    (matchQuery : String → List LessonManager.LessonIndexEntry)
    (initialized : Bool) (cfg : Knowledge.Config)
    (lessonState : LessonManager.CacheState LessonManager.JsonContent)
    (userText : String) :
    (Knowledge.getContextForQuery rlmLoaded rlm general lessonIndex matchQuery
        (fun _ => .error ()) initialized cfg lessonState userText
      = Knowledge.getContextForQuery rlmLoaded rlm general lessonIndex matchQuery
          (fun _ => .ok none) initialized cfg lessonState userText)
    ∧ (lessonState.contentCache = [] →
        (Knowledge.getContextForQuery rlmLoaded rlm general lessonIndex matchQuery
            (fun _ => .error ()) initialized cfg lessonState userText).1.lesson_context
            = ""
        ∧ (Knowledge.getContextForQuery rlmLoaded rlm general lessonIndex matchQuery
            (fun _ => .error ()) initialized cfg lessonState userText).2
            = lessonState)
    ∧ (∀ (c : LessonManager.JsonContent) (focus : String),
        LessonManager.formatForContext c focus
          = LessonManager.formatForContext (LessonManager.capContent c) focus) := by
  refine ⟨?_, ?_, ?_⟩
  · cases initialized with
    | false => rfl
    | true =>
      unfold Knowledge.getContextForQuery
      exact Knowledge.applyTier3_fetch_error_eq lessonIndex matchQuery cfg userText _
        lessonState
  · intro hcc
    cases initialized with
    | false => exact ⟨rfl, rfl⟩
    | true =>
      unfold Knowledge.getContextForQuery
      rw [show (!true) = false from rfl]
      rw [if_neg (by simp)]
      rw [Knowledge.applyTier3_error_empty lessonIndex matchQuery cfg userText _
        lessonState hcc]
      refine ⟨?_, rfl⟩
      rw [Knowledge.applyTier2_lesson, Knowledge.applyTier1_lesson]
  · intro c focus
    unfold LessonManager.formatForContext LessonManager.capContent
    dsimp only []
    rw [List.take_take]
    simp [List.map_map, Function.comp_def, LessonManager.formatExerciseParts_cap,
      LessonManager.formatRuleParts_cap]

/-- Witness for C5: with trivial providers, an empty lesson index and a
failing curriculum fetch, the run equals the no-content run, contributes no
lesson context, leaves the cache untouched; and the formatter agrees with
itself on a capped two-vocabulary content. -/
theorem claim_C5_witness :
    ((Knowledge.getContextForQuery true
        { lookupGrammar := fun _ => ([] : List Unit), formatGrammar := fun _ => "",
          lookupVocabulary := fun _ => (none : Option Unit),
          formatVocabulary := fun _ => "", checkMistakes := fun _ => ([] : List Unit),
          formatMistake := fun _ => "" }
        { lookupGrammar := fun _ => ([] : List Unit), formatGrammar := fun _ => "",
          lookupVocabulary := fun _ => (none : Option Unit),
          formatVocabulary := fun _ => "", checkMistakes := fun _ => ([] : List Unit),
          formatMistake := fun _ => "" }
        [{ content_id := "u" }] (fun _ => [{ content_id := "u" }])
        (fun _ => .error ()) true {} { contentCache := [] } "hello").1.lesson_context
      = "")
    ∧ LessonManager.formatForContext { vocabulary := [{ term := "a" }] } "all"
        = LessonManager.formatForContext
            (LessonManager.capContent { vocabulary := [{ term := "a" }] }) "all" :=
  ⟨((claim_C5 true
      { lookupGrammar := fun _ => ([] : List Unit), formatGrammar := fun _ => "",
        lookupVocabulary := fun _ => (none : Option Unit),
        formatVocabulary := fun _ => "", checkMistakes := fun _ => ([] : List Unit),
        formatMistake := fun _ => "" }
      { lookupGrammar := fun _ => ([] : List Unit), formatGrammar := fun _ => "",
        lookupVocabulary := fun _ => (none : Option Unit),
        formatVocabulary := fun _ => "", checkMistakes := fun _ => ([] : List Unit),
        formatMistake := fun _ => "" }
      [{ content_id := "u" }] (fun _ => [{ content_id := "u" }])
      true {} { contentCache := [] } "hello").2.1 rfl).1,
   (claim_C5 true
      { lookupGrammar := fun _ => ([] : List Unit), formatGrammar := fun _ => "",
        lookupVocabulary := fun _ => (none : Option Unit),
        formatVocabulary := fun _ => "", checkMistakes := fun _ => ([] : List Unit),
        formatMistake := fun _ => "" }
      { lookupGrammar := fun _ => ([] : List Unit), formatGrammar := fun _ => "",
        lookupVocabulary := fun _ => (none : Option Unit),
        formatVocabulary := fun _ => "", checkMistakes := fun _ => ([] : List Unit),
        formatMistake := fun _ => "" }
      [{ content_id := "u" }] (fun _ => [{ content_id := "u" }])
      true {} { contentCache := [] } "hello").2.2
     { vocabulary := [{ term := "a" }] } "all"⟩

/-! ## Claim C7 — short-answer grading rules -/

/-- Counterexample to C7 as stated: the claimed rule (accept iff Levenshtein
distance ≤ N with N = 1 for correct answers under 8 characters) fails for
both named checkers.  Exercise checking rejects `"hellp"` for `"hello"`
(distance 1, length 5 < 8) because it uses strict membership; the
vocabulary drill rejects `"cut"` for `"cat"` (distance 1, length 3 < 8)
because it allows edits only for correct answers longer than 5 characters. -/
theorem claim_C7_cex :
    ExerciseTracker.isCorrect "hellp" [] "hello" = false
    ∧ levenshtein "hellp" "hello" = 1
    ∧ "hello".length < 8
    ∧ VocabularyDriller.isCorrect "cut" "cat" = false
    ∧ levenshtein "cut" "cat" = 1
    ∧ "cat".length < 8 := by
  decide

/-- C7 (amended): the length-scaled bound (≤ 1 edit under 8 characters,
≤ 2 otherwise) is the rule of the word-game checker only, and there
combined with (apostrophe-normalised) equality; the vocabulary drill
accepts exactly on equality or distance ≤ 2 when the correct answer is
longer than 5 characters; exercise checking accepts exactly on literal
membership among the acceptable answers plus the correct answer, with no
edit tolerance. -/
theorem claim_C7_amended :
    (∀ s c : String, GameContext.checkAnswer s c = true ↔
        (s = c ∨ GameContext.replaceApostrophe s = GameContext.replaceApostrophe c
          ∨ levenshtein s c ≤ (if c.length < 8 then 1 else 2)))
    ∧ (∀ s c : String, VocabularyDriller.isCorrect s c = true ↔
        (s = c ∨ (5 < c.length ∧ levenshtein s c ≤ 2)))
    ∧ (∀ (s : String) (acc : List String) (c : String),
        ExerciseTracker.isCorrect s acc c = true ↔ s ∈ acc ++ [c]) := by
  refine ⟨fun s c => ?_, fun s c => ?_, fun s acc c => ?_⟩
  · unfold GameContext.checkAnswer
    by_cases h1 : s = c
    · simp [h1]
    · have hb : (s == c) = false := by simpa using h1
      simp only [hb, Bool.false_eq_true, if_false]
      by_cases h2 : GameContext.replaceApostrophe s = GameContext.replaceApostrophe c
      · simp [h2]
      · have hb2 : (GameContext.replaceApostrophe s
            == GameContext.replaceApostrophe c) = false := by simpa using h2
        simp [hb2, h1, h2, decide_eq_true_iff]
  · unfold VocabularyDriller.isCorrect
    by_cases h1 : s = c
    · simp [h1]
    · have hb : (s == c) = false := by simpa using h1
      simp [hb, h1, decide_eq_true_iff]
  · unfold ExerciseTracker.isCorrect
    simp

/-! ## Claim C8 — mistake-pattern loading and regex compilation -/

/-- Counterexample to C8 as stated: `GeneralKnowledgeBase._add_mistake`
performs no regex compilation at all and stores every record
unconditionally.  With a compilation oracle on which the pattern `"("`
fails (as `re.compile("(")` does), the record is nevertheless stored in the
`_mistake_patterns` index — while the RLM loader, fed the same record and
oracle, drops it. -/
theorem claim_C8_cex :
    (General.addMistake { mistakes := [], mistakePatterns := [] }
        { id := "bad", pattern := "(", correct := "x", explanation_en := "",
          explanation_de := "", frequency := "common", level := "A1" }).mistakePatterns
      = [("(",
          { id := "bad", pattern := "(", correct := "x", explanation_en := "",
            explanation_de := "", frequency := "common", level := "A1" })]
    ∧ (fun s => if s = "(" then (none : Option Unit) else some ()) "(" = none
    ∧ RLM.loadMistakePatterns
        (fun s => if s = "(" then (none : Option Unit) else some ())
        [] [{ pattern := "(" }] = [] :=
  ⟨rfl, rfl, rfl⟩

/-- C8 (amended): the RLM loader stores exactly the records whose regex
compiles (each with its compiled form attached) and drops the rest, so
every RLM mistake pattern held after loading has a successfully compiled
regex; the general knowledge base, whose patterns are plain substrings,
compiles nothing and stores every record unconditionally. -/
theorem claim_C8_amended {β : Type} :
    (∀ (compile : String → Option β) (existing : List (RLM.MistakePattern β))
        (records : List RLM.MistakeRecord),
      RLM.loadMistakePatterns compile existing records
        = existing ++ (records.filter (fun r => (compile r.pattern).isSome)).map
            (fun r => RLM.mkMistakePattern compile r.pattern r.correction
              r.explanation r.category))
    ∧ (∀ (idx : General.MistakeIndex) (m : General.CommonMistake),
        (pyLower m.pattern, m) ∈ (General.addMistake idx m).mistakePatterns) := by
  constructor
  · intro compile existing records
    induction records generalizing existing with
    | nil => simp [RLM.loadMistakePatterns]
    | cons r rs ih =>
      have hstep : RLM.loadMistakePatterns compile existing (r :: rs)
          = RLM.loadMistakePatterns compile
              (if (compile r.pattern).isSome then
                existing ++ [RLM.mkMistakePattern compile r.pattern r.correction
                  r.explanation r.category]
               else existing) rs := by
        unfold RLM.loadMistakePatterns
        rw [List.foldl_cons]
        rfl
      rw [hstep]
      by_cases hc : (compile r.pattern).isSome
      · rw [if_pos hc, ih, List.filter_cons_of_pos (by simpa using hc), List.map_cons]
        simp
      · rw [if_neg hc, ih, List.filter_cons_of_neg (by simpa using hc)]
  · intro idx m
    exact mem_dictInsert_self _ _ _

/-! ## Claim C2 — response cache lookup order -/

/-- Counterexample to C2 as stated: the code runs one pass over the
priority-sorted entries trying exact, pattern and fuzzy **per entry**, not
three global passes.  With a priority-10 literal `"hi!"` and a priority-0
literal `"hi"`, the query `"hi"` fuzzy-matches the higher-priority entry
(ratio 0.8 ≥ 0.75) before the exact literal match on the lower-priority
entry is ever tried, so the exact match does *not* win. -/
theorem claim_C2_cex :
    ResponseCache.lookup (fun _ _ => (some false : Option Bool))
        (ResponseCache.addResponse
          (ResponseCache.addResponse {} "hi!" "respA" false "" 10 "")
          "hi" "respB" false "" 0 "")
        "hi"
      = some { trigger := "hi!", response := "respA", isPattern := false,
               context := "", priority := 10, audioUrl := "" }
    ∧ ({ trigger := "hi", response := "respB", isPattern := false,
         context := "", priority := 0, audioUrl := "" }
        : ResponseCache.CachedResponse)
        ∈ (ResponseCache.addResponse
            (ResponseCache.addResponse {} "hi!" "respA" false "" 10 "")
            "hi" "respB" false "" 0 "").responses
    ∧ pyStrip (pyLower "hi") = "hi"
    ∧ ("hi!" : String) ≠ "hi" := by
  decide

namespace ResponseCache

theorem mem_insDesc {b x : CachedResponse} {l : List CachedResponse} :
    b ∈ insDesc x l ↔ b = x ∨ b ∈ l := by
  induction l with
  | nil => simp [insDesc]
  | cons y ys ih =>
    unfold insDesc
    by_cases hc : y.priority < x.priority
    · simp [hc, List.mem_cons]
    · simp [hc, List.mem_cons, ih]
      tauto

theorem insDesc_sorted (x : CachedResponse) {l : List CachedResponse}
    (h : l.Pairwise (fun a b => b.priority ≤ a.priority)) :
    (insDesc x l).Pairwise (fun a b => b.priority ≤ a.priority) := by
  induction l with
  | nil => simp [insDesc]
  | cons y ys ih =>
    rcases List.pairwise_cons.mp h with ⟨hy, hys⟩
    unfold insDesc
    by_cases hc : y.priority < x.priority
    · rw [if_pos hc]
      refine List.pairwise_cons.mpr ⟨?_, h⟩
      intro b hb
      rcases List.mem_cons.mp hb with hb | hb
      · rw [hb]; omega
      · have := hy b hb; omega
    · rw [if_neg hc]
      refine List.pairwise_cons.mpr ⟨?_, ih hys⟩
      intro b hb
      rcases mem_insDesc.mp hb with hb | hb
      · rw [hb]; omega
      · exact hy b hb

theorem sortByPriorityDesc_sorted (l : List CachedResponse) :
    (sortByPriorityDesc l).Pairwise (fun a b => b.priority ≤ a.priority) := by
  unfold sortByPriorityDesc
  suffices h : ∀ (acc : List CachedResponse),
      acc.Pairwise (fun a b => b.priority ≤ a.priority) →
      (l.foldl (fun acc x => insDesc x acc) acc).Pairwise
        (fun a b => b.priority ≤ a.priority) by
    exact h [] (by simp)
  induction l with
  | nil => intro acc hacc; simpa using hacc
  | cons x xs ih =>
    intro acc hacc
    simpa [List.foldl_cons] using ih (insDesc x acc) (insDesc_sorted x hacc)

theorem lookupFrom_eq_find? (rx : String → String → Option Bool)
    (cc il : String) (l : List CachedResponse) :
    lookupFrom rx cc il l = l.find? (entryMatches rx cc il) := by
  induction l with
  | nil => rfl
  | cons a t ih =>
    unfold lookupFrom
    by_cases hel : (a.context == "" || a.context == cc) = true
    case neg =>
      have helf : (a.context == "" || a.context == cc) = false := by simpa using hel
      have hp := Bool.or_eq_false_iff.mp helf
      have h1 : a.context ≠ "" := by simpa using hp.1
      have h2 : a.context ≠ cc := by simpa using hp.2
      rw [if_pos ⟨h1, h2⟩, List.find?_cons_of_neg _ (by simp [entryMatches, helf])]
      exact ih
    case pos =>
      have hctx : ¬ (a.context ≠ "" ∧ a.context ≠ cc) := by
        intro hc
        rcases Bool.or_eq_true_iff.mp hel with h | h
        · exact hc.1 (by simpa using h)
        · exact hc.2 (by simpa using h)
      rw [if_neg hctx]
      by_cases hex : (!a.isPattern && a.trigger == il) = true
      case pos =>
        rw [if_pos hex, List.find?_cons_of_pos _ (by simp [entryMatches, hel, hex])]
      case neg =>
        have hexf : (!a.isPattern && a.trigger == il) = false := by simpa using hex
        by_cases hpat : a.isPattern = true
        case pos =>
          rw [if_neg hex, if_pos hpat]
          rcases hrx : rx a.trigger il with _ | b
          · rw [List.find?_cons_of_neg _
              (by simp [entryMatches, hel, hexf, hpat, hrx])]
            exact ih
          · cases b with
            | true =>
              rw [List.find?_cons_of_pos _ (by simp [entryMatches, hel, hpat, hrx])]
            | false =>
              rw [List.find?_cons_of_neg _
                (by simp [entryMatches, hel, hexf, hpat, hrx])]
              exact ih
        case neg =>
          have hpatf : a.isPattern = false := by simpa using hpat
          rw [if_neg hex, if_neg (by simp [hpatf])]
          by_cases hfz : similarityThresholdMet il a.trigger = true
          case pos =>
            rw [if_pos hfz, List.find?_cons_of_pos _
              (by simp [entryMatches, hel, hpatf, hfz])]
          case neg =>
            have hfzf : similarityThresholdMet il a.trigger = false := by
              simpa using hfz
            have htr : a.trigger ≠ il := by
              intro hq
              rw [hpatf] at hexf
              simp [hq] at hexf
            rw [if_neg hfz, List.find?_cons_of_neg _
              (by simp [entryMatches, hel, hpatf, hfzf, htr])]
            exact ih

end ResponseCache

/-- C2 (amended): `lookup` makes a single pass over the entries (kept
stably sorted by descending priority by `add_response`) and returns the
first entry that is scope-eligible and matched by **any** of the three
strategies tried per entry in the order exact / pattern / fuzzy — so a
fuzzy or pattern match on a higher-priority entry beats an exact literal
match on a lower-priority one, and the context-scope skip applies to all
three strategies. -/
theorem claim_C2_amended :
    (∀ (rx : String → String → Option Bool) (st : ResponseCache.CacheState)
        (input : String),
      ResponseCache.lookup rx st input
        = st.responses.find?
            (ResponseCache.entryMatches rx st.currentContext
              (pyStrip (pyLower input))))
    ∧ (∀ (st : ResponseCache.CacheState) (trigger response : String)
        (isPattern : Bool) (context : String) (priority : Int) (audioUrl : String),
        ((ResponseCache.addResponse st trigger response isPattern context priority
            audioUrl).responses).Pairwise
          (fun a b => b.priority ≤ a.priority)) :=
  ⟨fun rx st input =>
    ResponseCache.lookupFrom_eq_find? rx st.currentContext
      (pyStrip (pyLower input)) st.responses,
   fun _ _ _ _ _ _ _ => ResponseCache.sortByPriorityDesc_sorted _⟩

/-! ## Claim C6 — cache-key normalization and collisions -/

theorem splitWsAux_of_all_ws :
    ∀ (w : List Char), (∀ c ∈ w, pyIsSpace c) → ∀ acc,
      splitWsAux w acc = splitWsAux [] acc := by
  intro w
  induction w with
  | nil => intro _ _; rfl
  | cons c cs ih =>
    intro hw acc
    have hc : pyIsSpace c := hw c (by simp)
    have hcs : ∀ x ∈ cs, pyIsSpace x := fun x hx => hw x (by simp [hx])
    unfold splitWsAux
    rw [if_pos hc]
    by_cases hacc : acc = []
    · rw [if_pos hacc, ih hcs [], hacc]
      rfl
    · rw [if_neg hacc, ih hcs []]
      show acc.reverse :: splitWsAux [] [] = splitWsAux [] acc
      unfold splitWsAux
      rw [if_pos rfl, if_neg hacc]

theorem splitWsAux_append_ws (w : List Char) (hw : ∀ c ∈ w, pyIsSpace c) :
    ∀ (l acc : List Char), splitWsAux (l ++ w) acc = splitWsAux l acc := by
  intro l
  induction l with
  | nil => intro acc; exact splitWsAux_of_all_ws w hw acc
  | cons c cs ih =>
    intro acc
    simp only [List.cons_append]
    unfold splitWsAux
    by_cases hc : pyIsSpace c = true
    · rw [if_pos hc, if_pos hc]
      by_cases hacc : acc = []
      · rw [if_pos hacc, if_pos hacc, ih []]
      · rw [if_neg hacc, if_neg hacc, ih []]
    · rw [if_neg hc, if_neg hc, ih (c :: acc)]

theorem splitWsAux_dropWhile (l : List Char) :
    splitWsAux (l.dropWhile pyIsSpace) [] = splitWsAux l [] := by
  induction l with
  | nil => rfl
  | cons c cs ih =>
    by_cases hc : pyIsSpace c = true
    · rw [List.dropWhile_cons_of_pos hc, ih]
      show splitWsAux cs [] = splitWsAux (c :: cs) []
      conv_rhs => unfold splitWsAux
      rw [if_pos hc, if_pos rfl]
    · rw [List.dropWhile_cons_of_neg hc]

theorem splitWs_trimL (l : List Char) : splitWs (trimL l) = splitWs l := by
  unfold splitWs trimL
  set m := l.dropWhile pyIsSpace with hm
  have hsplit : m.reverse.takeWhile pyIsSpace ++ m.reverse.dropWhile pyIsSpace
      = m.reverse :=
    List.takeWhile_append_dropWhile (p := pyIsSpace) (l := m.reverse)
  have hdecomp : m = (m.reverse.dropWhile pyIsSpace).reverse
      ++ (m.reverse.takeWhile pyIsSpace).reverse := by
    calc m = m.reverse.reverse := (List.reverse_reverse m).symm
    _ = (m.reverse.takeWhile pyIsSpace ++ m.reverse.dropWhile pyIsSpace).reverse := by
        rw [hsplit]
    _ = (m.reverse.dropWhile pyIsSpace).reverse
          ++ (m.reverse.takeWhile pyIsSpace).reverse :=
        List.reverse_append ..
  have hws : ∀ c ∈ (m.reverse.takeWhile pyIsSpace).reverse, pyIsSpace c := by
    intro c hc
    rw [List.mem_reverse] at hc
    exact List.mem_takeWhile_imp hc
  calc splitWsAux ((m.reverse.dropWhile pyIsSpace).reverse) []
      = splitWsAux ((m.reverse.dropWhile pyIsSpace).reverse
          ++ (m.reverse.takeWhile pyIsSpace).reverse) [] :=
        (splitWsAux_append_ws _ hws _ []).symm
    _ = splitWsAux m [] := by rw [← hdecomp]
    _ = splitWsAux l [] := splitWsAux_dropWhile l

theorem normalizeQuery_eq_of_words {q1 q2 : String} (h : wordsOf q1 = wordsOf q2) :
    RAGCache.normalizeQuery q1 = RAGCache.normalizeQuery q2 := by
  unfold RAGCache.normalizeQuery
  unfold wordsOf at h
  have h1 : splitWs (trimL (lowerL q1.data)) = splitWs (trimL (lowerL q2.data)) := by
    rw [splitWs_trimL, splitWs_trimL]
    exact h
  rw [h1]

theorem sortIds_eq_of_perm {ids1 ids2 : List String} (h : List.Perm ids1 ids2) :
    RAGCache.sortIds ids1 = RAGCache.sortIds ids2 := by
  haveI : IsTotal String (fun a b : String => a.data ≤ b.data) :=
    ⟨fun a b => le_total a.data b.data⟩
  haveI : IsTrans String (fun a b : String => a.data ≤ b.data) :=
    ⟨fun _ _ _ hab hbc => le_trans hab hbc⟩
  haveI : IsAntisymm String (fun a b : String => a.data ≤ b.data) :=
    ⟨fun a b hab hba => by
      cases a; cases b; exact congrArg String.mk (le_antisymm hab hba)⟩
  exact List.eq_of_perm_of_sorted
    (((List.perm_insertionSort _ ids1).trans h).trans
      (List.perm_insertionSort _ ids2).symm)
    (List.sorted_insertionSort _ _) (List.sorted_insertionSort _ _)

theorem joinCommaS_data :
    ∀ l : List String, (RAGCache.joinCommaS l).data = joinC (l.map String.data) := by
  intro l
  induction l with
  | nil => rfl
  | cons x xs ih =>
    cases xs with
    | nil => rfl
    | cons y ys =>
      show (x ++ "," ++ RAGCache.joinCommaS (y :: ys)).data
          = x.data ++ ',' :: joinC ((y :: ys).map String.data)
      rw [String.data_append, String.data_append, ih]
      simp

theorem mem_joinC :
    ∀ (L : List (List Char)) (c : Char), c ∈ joinC L → c = ',' ∨ ∃ x ∈ L, c ∈ x := by
  intro L
  induction L with
  | nil => intro c hc; simp [joinC] at hc
  | cons x xs ih =>
    intro c hc
    cases xs with
    | nil => exact Or.inr ⟨x, by simp, by simpa [joinC] using hc⟩
    | cons y ys =>
      rw [show joinC (x :: y :: ys) = x ++ ',' :: joinC (y :: ys) from rfl] at hc
      rcases List.mem_append.mp hc with h | h
      · exact Or.inr ⟨x, by simp, h⟩
      · rcases List.mem_cons.mp h with h | h
        · exact Or.inl h
        · rcases ih c h with h | ⟨z, hz, hcz⟩
          · exact Or.inl h
          · exact Or.inr ⟨z, List.mem_cons_of_mem _ hz, hcz⟩

theorem joinC_ne_nil {L : List (List Char)}
    (h : ∀ x ∈ L, x ≠ []) (hL : L ≠ []) : joinC L ≠ [] := by
  cases L with
  | nil => exact absurd rfl hL
  | cons x xs =>
    cases xs with
    | nil => exact h x (by simp)
    | cons y ys =>
      show x ++ ',' :: joinC (y :: ys) ≠ []
      simp

theorem append_comma_inj : ∀ (a : List Char) {b r s : List Char},
    ',' ∉ a → ',' ∉ b → a ++ ',' :: r = b ++ ',' :: s → a = b ∧ r = s := by
  intro a
  induction a with
  | nil =>
    intro b r s _ hb heq
    cases b with
    | nil => simpa using heq
    | cons d ds =>
      simp only [List.nil_append, List.cons_append, List.cons.injEq] at heq
      exact absurd (by rw [← heq.1]; simp : (',' : Char) ∈ d :: ds) hb
  | cons c cs ih =>
    intro b r s ha hb heq
    cases b with
    | nil =>
      simp only [List.cons_append, List.nil_append, List.cons.injEq] at heq
      exact absurd (by rw [← heq.1]; simp : (',' : Char) ∈ c :: cs) ha
    | cons d ds =>
      simp only [List.cons_append, List.cons.injEq] at heq
      obtain ⟨hcd, heq2⟩ := heq
      have ha' : ',' ∉ cs := fun h => ha (List.mem_cons_of_mem _ h)
      have hb' : ',' ∉ ds := fun h => hb (List.mem_cons_of_mem _ h)
      obtain ⟨h1, h2⟩ := ih ha' hb' heq2
      exact ⟨by rw [hcd, h1], h2⟩

theorem joinC_inj : ∀ (L1 L2 : List (List Char)),
    (∀ x ∈ L1, x ≠ [] ∧ ',' ∉ x) → (∀ x ∈ L2, x ≠ [] ∧ ',' ∉ x) →
    joinC L1 = joinC L2 → L1 = L2 := by
  intro L1
  induction L1 with
  | nil =>
    intro L2 _ h2 heq
    cases L2 with
    | nil => rfl
    | cons y ys =>
      exact absurd heq.symm (joinC_ne_nil (fun x hx => (h2 x hx).1) (by simp))
  | cons x xs ih =>
    intro L2 h1 h2 heq
    cases L2 with
    | nil =>
      exact absurd heq (joinC_ne_nil (fun z hz => (h1 z hz).1) (by simp))
    | cons y ys =>
      cases xs with
      | nil =>
        cases ys with
        | nil =>
          have : x = y := heq
          rw [this]
        | cons y2 ys' =>
          exfalso
          have hmem : (',' : Char) ∈ x := by
            rw [show joinC [x] = x from rfl] at heq
            rw [heq]
            exact List.mem_append_right _ (List.mem_cons_self _ _)
          exact (h1 x (by simp)).2 hmem
      | cons x2 xs' =>
        cases ys with
        | nil =>
          exfalso
          have hmem : (',' : Char) ∈ y := by
            rw [show joinC [y] = y from rfl] at heq
            rw [← heq]
            exact List.mem_append_right _ (List.mem_cons_self _ _)
          exact (h2 y (by simp)).2 hmem
        | cons y2 ys' =>
          obtain ⟨hxy, hJ⟩ := append_comma_inj x (h1 x (by simp)).2
            (h2 y (by simp)).2 heq
          have htl := ih (y2 :: ys')
            (fun z hz => h1 z (List.mem_cons_of_mem _ hz))
            (fun z hz => h2 z (List.mem_cons_of_mem _ hz)) hJ
          rw [hxy, htl]

theorem takeWhile_ne_colon (r : List Char) :
    ∀ (s : List Char), (∀ c ∈ s, (c != ':') = true) →
      (s ++ ':' :: r).takeWhile (fun c => c != ':') = s := by
  intro s
  induction s with
  | nil => intro _; rfl
  | cons c cs ih =>
    intro h
    have hc := h c (by simp)
    simp only [List.cons_append, List.takeWhile_cons, hc]
    rw [ih (fun x hx => h x (by simp [hx]))]
    simp

theorem lastSeg_append (p s : List Char) (hs : ':' ∉ s) :
    lastSeg (p ++ ':' :: s) = s := by
  unfold lastSeg
  have hrev : (p ++ ':' :: s).reverse = s.reverse ++ ':' :: p.reverse := by
    rw [List.reverse_append, List.reverse_cons]
    simp
  rw [hrev, takeWhile_ne_colon p.reverse s.reverse (fun c hc => by
    rw [List.mem_reverse] at hc
    have : c ≠ ':' := fun h => hs (h ▸ hc)
    simpa using this)]
  exact List.reverse_reverse s

theorem string_data_inj : Function.Injective String.data := by
  intro a b h
  cases a
  cases b
  exact congrArg String.mk h

/-- Counterexample to C6 as stated: "queries against different scopes never
produce the same key" fails — the pre-hash key string (and hence the
truncated SHA-256 key) collides for different discriminator sets when a
discriminator contains the separator characters or is empty:
`["a,b"]` vs `["a","b"]` (comma injection), `["a:b"]` with query `"q"` vs

`["b"]` with query `"q:a"` (colon injection), and `[]` vs `[""]`. -/
theorem claim_C6_cex :
    RAGCache.keyData "q" ["a,b"] = RAGCache.keyData "q" ["a", "b"]
    ∧ ¬ List.Perm ["a,b"] ["a", "b"]
    ∧ RAGCache.makeKey (fun s => s) "q" ["a,b"]
        = RAGCache.makeKey (fun s => s) "q" ["a", "b"]
    ∧ RAGCache.keyData "q" ["a:b"] = RAGCache.keyData "q:a" ["b"]
    ∧ ¬ List.Perm ["a:b"] ["b"]
    ∧ RAGCache.keyData "q" [] = RAGCache.keyData "q" [""]
    ∧ ¬ List.Perm ([] : List String) [""] := by
  decide

/-- C6 (amended): (i) two queries with the same case-folded word sequence
(differing only in letter case and leading/trailing/internal whitespace),
against the same multiset of discriminators in any order, produce the same
cache key for every digest function — in particular for the truncated
SHA-256 of `_make_key`; (ii) two queries against different discriminator
multisets produce different pre-hash `key_data` strings **provided** every
discriminator is non-empty and free of `','` and `':'` (by the
counterexample, separator injection or an empty discriminator defeats
this); distinctness of the final truncated digest additionally holds only
up to SHA-256 collisions. -/
theorem claim_C6_amended :
    (∀ (digest : String → String) (q1 q2 : String) (ids1 ids2 : List String),
       wordsOf q1 = wordsOf q2 → List.Perm ids1 ids2 →
       RAGCache.makeKey digest q1 ids1 = RAGCache.makeKey digest q2 ids2)
    ∧ (∀ (q1 q2 : String) (ids1 ids2 : List String),
       (∀ x ∈ ids1 ++ ids2, x ≠ "" ∧ ',' ∉ x.data ∧ ':' ∉ x.data) →
       RAGCache.keyData q1 ids1 = RAGCache.keyData q2 ids2 →
       List.Perm ids1 ids2) := by
  constructor
  · intro digest q1 q2 ids1 ids2 hw hperm
    unfold RAGCache.makeKey RAGCache.keyData
    rw [normalizeQuery_eq_of_words hw, sortIds_eq_of_perm hperm]
  · intro q1 q2 ids1 ids2 hclean heq
    have hmem1 : ∀ x ∈ RAGCache.sortIds ids1,
        x ≠ "" ∧ ',' ∉ x.data ∧ ':' ∉ x.data := by
      intro x hx
      exact hclean x (List.mem_append_left _
        (((List.perm_insertionSort _ ids1).mem_iff).mp hx))
    have hmem2 : ∀ x ∈ RAGCache.sortIds ids2,
        x ≠ "" ∧ ',' ∉ x.data ∧ ':' ∉ x.data := by
      intro x hx
      exact hclean x (List.mem_append_right _
        (((List.perm_insertionSort _ ids2).mem_iff).mp hx))
    have hdata : (RAGCache.normalizeQuery q1).data
          ++ ':' :: (RAGCache.joinCommaS (RAGCache.sortIds ids1)).data
        = (RAGCache.normalizeQuery q2).data
          ++ ':' :: (RAGCache.joinCommaS (RAGCache.sortIds ids2)).data := by
      have hd := congrArg String.data heq
      unfold RAGCache.keyData at hd
      rw [String.data_append, String.data_append, String.data_append,
        String.data_append] at hd
      simpa using hd
    have hJcolon : ∀ (ids : List String),
        (∀ x ∈ RAGCache.sortIds ids, x ≠ "" ∧ ',' ∉ x.data ∧ ':' ∉ x.data) →
        ':' ∉ (RAGCache.joinCommaS (RAGCache.sortIds ids)).data := by
      intro ids hmem hc
      rw [joinCommaS_data] at hc
      rcases mem_joinC _ _ hc with h | ⟨z, hz, hcz⟩
      · exact absurd h (by decide)
      · rcases List.mem_map.mp hz with ⟨w, hw, rfl⟩
        exact (hmem w hw).2.2 hcz
    have hJeq : (RAGCache.joinCommaS (RAGCache.sortIds ids1)).data
        = (RAGCache.joinCommaS (RAGCache.sortIds ids2)).data := by
      have h1 := lastSeg_append (RAGCache.normalizeQuery q1).data _
        (hJcolon ids1 hmem1)
      have h2 := lastSeg_append (RAGCache.normalizeQuery q2).data _
        (hJcolon ids2 hmem2)
      rw [← h1, ← h2, hdata]
    have hJeq2 : joinC ((RAGCache.sortIds ids1).map String.data)
        = joinC ((RAGCache.sortIds ids2).map String.data) := by
      rw [← joinCommaS_data, ← joinCommaS_data]
      exact hJeq
    have hmapeq : (RAGCache.sortIds ids1).map String.data
        = (RAGCache.sortIds ids2).map String.data := by
      refine joinC_inj _ _ ?_ ?_ hJeq2
      · intro x hx
        rcases List.mem_map.mp hx with ⟨w, hw, rfl⟩
        refine ⟨fun h0 => (hmem1 w hw).1 ?_, (hmem1 w hw).2.1⟩
        cases w
        simpa using congrArg String.mk h0
      · intro x hx
        rcases List.mem_map.mp hx with ⟨w, hw, rfl⟩
        refine ⟨fun h0 => (hmem2 w hw).1 ?_, (hmem2 w hw).2.1⟩
        cases w
        simpa using congrArg String.mk h0
    have hsort : RAGCache.sortIds ids1 = RAGCache.sortIds ids2 :=
      (List.map_injective_iff.mpr string_data_inj) hmapeq
    have hp1 : List.Perm ids1 (RAGCache.sortIds ids1) :=
      (List.perm_insertionSort _ ids1).symm
    have hp2 : List.Perm (RAGCache.sortIds ids2) ids2 :=
      List.perm_insertionSort _ ids2
    rw [hsort] at hp1
    exact hp1.trans hp2

/-- Witness for the amended C6: case/whitespace variants of a query against
permuted discriminators share one key (identity digest shown), and equal
key-data with clean discriminators forces equal discriminator multisets. -/
theorem claim_C6_amended_witness :
    (RAGCache.makeKey (fun s => s) "  Hello   WORLD " ["b", "a"]
      = RAGCache.makeKey (fun s => s) "hello world" ["a", "b"])
    ∧ List.Perm ["b", "a"] ["a", "b"] :=
  ⟨claim_C6_amended.1 (fun s => s) "  Hello   WORLD " "hello world"
      ["b", "a"] ["a", "b"] (by decide) (by decide),
   claim_C6_amended.2 "x" "X" ["b", "a"] ["a", "b"] (by decide) (by decide)⟩

/-- Witness for C10 at a concrete run: a fetched value `7` for `"u1"`
survives two later calls (one for another id, one for `"u1"` with a failing
fetch) and is returned again without any fetch. -/
theorem claim_C10_witness :
    LessonManager.getContent (γ := Nat) (.error ()) "u1"
        (LessonManager.runCalls [("u2", .ok none), ("u1", .error ())]
          (LessonManager.getContent (.ok (some 7)) "u1"
            ({ contentCache := [] } : LessonManager.CacheState Nat)).2.1)
      = (some 7,
         LessonManager.runCalls [("u2", .ok none), ("u1", .error ())]
           (LessonManager.getContent (.ok (some 7)) "u1"
             ({ contentCache := [] } : LessonManager.CacheState Nat)).2.1,
         false) :=
  claim_C10 (.ok (some 7)) "u1" { contentCache := [] } 7 rfl
    [("u2", .ok none), ("u1", .error ())] (.error ())

end Avatar
